import Mathlib

/- Verification of the resource-allocation and auto-scheduling core of the
planner application (planner_mvp/app/scheduler.py and planner_mvp/app/main.py).

Instants are modelled as natural numbers counting microseconds since an epoch
placed at a Monday midnight, so that the Python datetime field accesses used by
the code become plain divisions and remainders at microsecond precision:
`dt.date()` is `t / usPerDay`, `dt.weekday()` is `(t / usPerDay) % 7` (Monday
= 0, as in Python), `dt.hour * 60 + dt.minute` is `(t / usPerMin) % 1440`,
and `dt.second == 0 and dt.microsecond == 0` is `t % usPerMin = 0`.
Calendar dates are modelled as natural day indices with the same epoch, so the
weekday of day `d` is `d % 7`.  Python ints are embedded as `Nat`/`Int` and
Python floats as `ℚ` (exact arithmetic; the float rounding error of the
original is not modelled, and every concrete instance evaluated below is far
from any rounding boundary). -/

/-- Microseconds in one second. -/
def usPerSec : Nat := 1000000

/-- Microseconds in one minute. -/
def usPerMin : Nat := 60000000

/-- Microseconds in one day. -/
def usPerDay : Nat := 1440 * usPerMin

/-- scheduler.py WEEK_SNAP_MIN: the fixed scheduling grid, in minutes. -/
def WEEK_SNAP_MIN : Nat := 60

/-- Embedding of scheduler.py `_ceil_to_snap`: ceil a datetime to the next
snap boundary.  `total_minutes` is `dt.hour * 60 + dt.minute`; the first
branch is taken when `remainder == 0 and dt.second == 0 and dt.microsecond
== 0` and returns `dt.replace(second=0, microsecond=0)`; the second branch
adds `snap_minutes - remainder` minutes to the second/microsecond-zeroed
datetime. -/
def ceil_to_snap (dt : Nat) (snap_minutes : Nat) : Nat :=
  let total_minutes := (dt / usPerMin) % 1440
  let remainder := total_minutes % snap_minutes
  if remainder = 0 ∧ (dt / usPerSec) % 60 = 0 ∧ dt % usPerSec = 0 then
    (dt / usPerMin) * usPerMin
  else
    (dt / usPerMin) * usPerMin + (snap_minutes - remainder) * usPerMin

/-- A person's calendar profile as consumed by the scheduler and the capacity
engine.  `work_days` holds the parsed comma-separated weekday list (Mon = 0 ..
Sun = 6); `work_start` / `work_end` hold the parsed "HH:MM" values of
`_parse_hhmm` / `_safe_hhmm` as minutes from midnight. -/
structure Person where
  work_days : List Nat
  work_start : Nat
  work_end : Nat
  deriving DecidableEq

/-- scheduler.py `_is_workday`: the weekday of the instant is in the person's
workday set. -/
def is_workday (p : Person) (dt : Nat) : Bool :=
  p.work_days.contains ((dt / usPerDay) % 7)

/-- scheduler.py `_day_bounds`: the day's absolute [work start, work end)
instants, from midnight of the instant's day. -/
def day_bounds (p : Person) (day : Nat) : Nat × Nat :=
  let day0 := (day / usPerDay) * usPerDay
  (day0 + p.work_start * usPerMin, day0 + p.work_end * usPerMin)

/-- The clipping list comprehension inside `_subtract_intervals`:
`[(max(start, a), min(end, b)) for a, b in blocks if b > start and a < end]`. -/
def clip_blocks (start stop : Nat) (blocks : List (Nat × Nat)) : List (Nat × Nat) :=
  (blocks.filter (fun p => start < p.2 ∧ p.1 < stop)).map
    (fun p => (max start p.1, min stop p.2))

/-- The sort key of `_subtract_intervals`: ascending interval start. -/
def byStart (p q : Nat × Nat) : Prop := p.1 ≤ q.1

instance : DecidableRel byStart := fun p q => Nat.decLe p.1 q.1

instance : IsTotal (Nat × Nat) byStart := ⟨fun p q => Nat.le_total p.1 q.1⟩

instance : IsTrans (Nat × Nat) byStart := ⟨fun _ _ _ h1 h2 => Nat.le_trans h1 h2⟩

/-- The cursor sweep of `_subtract_intervals`: emit `(cur, a)` whenever the
next busy interval starts after the cursor, advance the cursor to
`max(cur, b)`, and finally emit the tail gap up to the base end. -/
def sweep (stop : Nat) : Nat → List (Nat × Nat) → List (Nat × Nat)
  | cur, [] => if cur < stop then [(cur, stop)] else []
  | cur, (a, b) :: rest =>
    if cur < a then (cur, a) :: sweep stop (max cur b) rest
    else sweep stop (max cur b) rest

/-- Embedding of scheduler.py `_subtract_intervals`: the base interval minus
the (possibly overlapping, unordered) busy intervals.  Python's `sorted` with
key `x[0]` is a stable sort by interval start, which `List.insertionSort
byStart` reproduces exactly. -/
def subtract_intervals (base : Nat × Nat) (blocks : List (Nat × Nat)) :
    List (Nat × Nat) :=
  if base.1 ≥ base.2 then []
  else sweep base.2 base.1 (List.insertionSort byStart (clip_blocks base.1 base.2 blocks))

/-- The set of instants covered by a list of [start, stop) intervals. -/
def interval_union (l : List (Nat × Nat)) : Finset Nat :=
  l.foldr (fun p acc => Finset.Ico p.1 p.2 ∪ acc) ∅

/-- The union of the busy intervals clipped to the base [start, stop), as a
set of instants (the spec's "union of the busy intervals clipped to the
base"). -/
def clipped_busy_union (start stop : Nat) (blocks : List (Nat × Nat)) : Finset Nat :=
  blocks.foldr (fun p acc => Finset.Ico (max start p.1) (min stop p.2) ∪ acc) ∅

lemma mem_interval_union {t : Nat} {l : List (Nat × Nat)} :
    t ∈ interval_union l ↔ ∃ p ∈ l, p.1 ≤ t ∧ t < p.2 := by
  induction l with
  | nil => simp [interval_union]
  | cons q rest ih =>
    simp only [interval_union, List.foldr_cons, Finset.mem_union, Finset.mem_Ico] at ih ⊢
    constructor
    · rintro (h | h)
      · exact ⟨q, List.mem_cons_self _ _, h⟩
      · obtain ⟨p, hp, hm⟩ := ih.mp h
        exact ⟨p, List.mem_cons_of_mem _ hp, hm⟩
    · rintro ⟨p, hp, hm⟩
      rcases List.mem_cons.mp hp with rfl | hp
      · exact Or.inl hm
      · exact Or.inr (ih.mpr ⟨p, hp, hm⟩)

lemma mem_clipped_busy_union {t start stop : Nat} {blocks : List (Nat × Nat)} :
    t ∈ clipped_busy_union start stop blocks ↔
      ∃ p ∈ blocks, max start p.1 ≤ t ∧ t < min stop p.2 := by
  induction blocks with
  | nil => simp [clipped_busy_union]
  | cons q rest ih =>
    simp only [clipped_busy_union, List.foldr_cons, Finset.mem_union, Finset.mem_Ico] at ih ⊢
    constructor
    · rintro (h | h)
      · exact ⟨q, List.mem_cons_self _ _, h⟩
      · obtain ⟨p, hp, hm⟩ := ih.mp h
        exact ⟨p, List.mem_cons_of_mem _ hp, hm⟩
    · rintro ⟨p, hp, hm⟩
      rcases List.mem_cons.mp hp with rfl | hp
      · exact Or.inl hm
      · exact Or.inr (ih.mpr ⟨p, hp, hm⟩)

/-- Characterization of `_ceil_to_snap` at the 60-minute grid: it is the
least multiple of one hour (in microseconds) at or above the input.  One hour
divides one day, so "multiple of the grid from midnight, with zero seconds
and microseconds" is exactly "multiple of `60 * usPerMin` microseconds from
the epoch". -/
lemma ceil_to_snap_sixty (t : Nat) :
    ceil_to_snap t 60 =
      if t % 3600000000 = 0 then t else (t / 3600000000 + 1) * 3600000000 := by
  simp only [ceil_to_snap, usPerMin, usPerSec]
  split <;> split <;> omega

lemma ceil_to_snap_le (t : Nat) : t ≤ ceil_to_snap t 60 := by
  rw [ceil_to_snap_sixty]; split <;> omega

lemma ceil_to_snap_mod (t : Nat) : ceil_to_snap t 60 % 3600000000 = 0 := by
  rw [ceil_to_snap_sixty]; split <;> omega

lemma ceil_to_snap_least (t m : Nat) (h1 : t ≤ m) (h2 : m % 3600000000 = 0) :
    ceil_to_snap t 60 ≤ m := by
  rw [ceil_to_snap_sixty]; split <;> omega

lemma ceil_to_snap_of_mod (t : Nat) (h : t % 3600000000 = 0) :
    ceil_to_snap t 60 = t := by
  rw [ceil_to_snap_sixty, if_pos h]

/-- Invariant of the `_subtract_intervals` sweep: free pieces lie between the
cursor and the base end, are non-empty and left-to-right disjoint, and their
total length plus the measure of the busy union right of the cursor is the
remaining span. -/
lemma sweep_spec (stop : Nat) :
    ∀ (l : List (Nat × Nat)) (cur : Nat),
      (∀ p ∈ l, p.1 ≤ p.2 ∧ p.2 ≤ stop) → List.Sorted byStart l → cur ≤ stop →
      (∀ q ∈ sweep stop cur l, cur ≤ q.1 ∧ q.1 < q.2 ∧ q.2 ≤ stop) ∧
      List.Chain' (fun p q : Nat × Nat => p.2 ≤ q.1) (sweep stop cur l) ∧
      ((sweep stop cur l).map (fun q => q.2 - q.1)).sum +
        (interval_union l ∩ Finset.Ico cur stop).card = stop - cur := by
  intro l
  induction l with
  | nil =>
    intro cur _ _ hcur
    simp only [sweep, interval_union, List.foldr_nil, Finset.empty_inter, Finset.card_empty]
    split_ifs with h
    · refine ⟨?_, ?_, ?_⟩
      · intro q hq
        simp only [List.mem_singleton] at hq
        subst hq
        exact ⟨le_rfl, h, le_rfl⟩
      · simp
      · simp
    · refine ⟨?_, ?_, ?_⟩
      · intro q hq
        simp at hq
      · simp
      · simp
        omega
  | cons hd rest ih =>
    obtain ⟨a, b⟩ := hd
    intro cur hwf hsorted hcur
    have hab : a ≤ b := (hwf (a, b) (List.mem_cons_self _ _)).1
    have hbe : b ≤ stop := (hwf (a, b) (List.mem_cons_self _ _)).2
    have hwfr : ∀ p ∈ rest, p.1 ≤ p.2 ∧ p.2 ≤ stop :=
      fun p hp => hwf p (List.mem_cons_of_mem _ hp)
    have hsr : List.Sorted byStart rest := hsorted.of_cons
    have hhead : ∀ p ∈ rest, a ≤ p.1 := fun p hp => List.rel_of_sorted_cons hsorted p hp
    have hrestlb : ∀ t ∈ interval_union rest, a ≤ t := by
      intro t ht
      obtain ⟨p, hp, h1, _⟩ := mem_interval_union.mp ht
      exact le_trans (hhead p hp) h1
    have huc : interval_union ((a, b) :: rest) = Finset.Ico a b ∪ interval_union rest := rfl
    by_cases hca : cur < a
    · -- emit (cur, a), cursor advances to max cur b = b
      have hcb : cur < b := lt_of_lt_of_le hca hab
      have hmax : max cur b = b := by omega
      obtain ⟨ih1, ih2, ih3⟩ := ih b hwfr hsr hbe
      have hs : sweep stop cur ((a, b) :: rest) = (cur, a) :: sweep stop b rest := by
        simp [sweep, hca, hmax]
      -- card decomposition
      have hsplit : Finset.Ico cur stop = Finset.Ico cur b ∪ Finset.Ico b stop :=
        (Finset.Ico_union_Ico_eq_Ico (le_of_lt hcb) hbe).symm
      have hd1 : (Finset.Ico a b ∪ interval_union rest) ∩ Finset.Ico cur b = Finset.Ico a b := by
        apply Finset.Subset.antisymm
        · intro t ht
          simp only [Finset.mem_inter, Finset.mem_union, Finset.mem_Ico] at ht ⊢
          rcases ht.1 with h | h
          · exact h
          · exact ⟨hrestlb t h, ht.2.2⟩
        · intro t ht
          simp only [Finset.mem_inter, Finset.mem_union, Finset.mem_Ico] at ht ⊢
          exact ⟨Or.inl ht, le_trans (le_of_lt hca) ht.1, ht.2⟩
      have hd2 : (Finset.Ico a b ∪ interval_union rest) ∩ Finset.Ico b stop =
          interval_union rest ∩ Finset.Ico b stop := by
        rw [Finset.union_inter_distrib_right]
        have : Finset.Ico a b ∩ Finset.Ico b stop = ∅ := by
          apply Finset.eq_empty_iff_forall_not_mem.mpr
          intro t ht
          simp only [Finset.mem_inter, Finset.mem_Ico] at ht
          omega
        rw [this, Finset.empty_union]
      have hcard : ((Finset.Ico a b ∪ interval_union rest) ∩ Finset.Ico cur stop).card
          = (b - a) + (interval_union rest ∩ Finset.Ico b stop).card := by
        rw [hsplit, Finset.inter_union_distrib_left, Finset.card_union_of_disjoint, hd1, hd2,
          Nat.card_Ico]
        exact Finset.disjoint_of_subset_left (by rw [hd1]; exact Finset.Ico_subset_Ico (le_of_lt hca) le_rfl)
          (Finset.Ico_disjoint_Ico_consecutive cur b stop) |>.mono_right (Finset.inter_subset_right)
      constructor
      · intro q hq
        rw [hs] at hq
        rcases List.mem_cons.mp hq with rfl | hq
        · exact ⟨le_rfl, hca, le_trans hab hbe⟩
        · obtain ⟨h1, h2, h3⟩ := ih1 q hq
          exact ⟨le_trans (le_of_lt hcb) h1, h2, h3⟩
      constructor
      · rw [hs]
        apply List.chain'_cons'.mpr
        refine ⟨?_, ih2⟩
        intro y hy
        have hym : y ∈ sweep stop b rest := List.mem_of_mem_head? hy
        exact le_trans hab (ih1 y hym).1
      · rw [hs, huc]
        simp only [List.map_cons, List.sum_cons]
        rw [hcard]
        omega
    · -- no emission; cursor advances to max cur b
      have hca2 : a ≤ cur := by omega
      have hs : sweep stop cur ((a, b) :: rest) = sweep stop (max cur b) rest := by
        simp only [sweep, if_neg hca]
      by_cases hbc : b ≤ cur
      · have hmax : max cur b = cur := by omega
        obtain ⟨ih1, ih2, ih3⟩ := ih cur hwfr hsr hcur
        have hempty : Finset.Ico a b ∩ Finset.Ico cur stop = ∅ := by
          apply Finset.eq_empty_iff_forall_not_mem.mpr
          intro t ht
          simp only [Finset.mem_inter, Finset.mem_Ico] at ht
          omega
        have hcard : ((Finset.Ico a b ∪ interval_union rest) ∩ Finset.Ico cur stop).card
            = (interval_union rest ∩ Finset.Ico cur stop).card := by
          rw [Finset.union_inter_distrib_right, hempty, Finset.empty_union]
        rw [hs, hmax, huc, hcard]
        exact ⟨ih1, ih2, ih3⟩
      · push_neg at hbc
        have hmax : max cur b = b := by omega
        obtain ⟨ih1, ih2, ih3⟩ := ih b hwfr hsr hbe
        have hsplit : Finset.Ico cur stop = Finset.Ico cur b ∪ Finset.Ico b stop :=
          (Finset.Ico_union_Ico_eq_Ico (le_of_lt hbc) hbe).symm
        have hd1 : (Finset.Ico a b ∪ interval_union rest) ∩ Finset.Ico cur b = Finset.Ico cur b := by
          rw [Finset.inter_eq_right]
          intro t ht
          simp only [Finset.mem_Ico] at ht
          simp only [Finset.mem_union, Finset.mem_Ico]
          exact Or.inl ⟨le_trans hca2 ht.1, ht.2⟩
        have hd2 : (Finset.Ico a b ∪ interval_union rest) ∩ Finset.Ico b stop =
            interval_union rest ∩ Finset.Ico b stop := by
          rw [Finset.union_inter_distrib_right]
          have : Finset.Ico a b ∩ Finset.Ico b stop = ∅ := by
            apply Finset.eq_empty_iff_forall_not_mem.mpr
            intro t ht
            simp only [Finset.mem_inter, Finset.mem_Ico] at ht
            omega
          rw [this, Finset.empty_union]
        have hcard : ((Finset.Ico a b ∪ interval_union rest) ∩ Finset.Ico cur stop).card
            = (b - cur) + (interval_union rest ∩ Finset.Ico b stop).card := by
          rw [hsplit, Finset.inter_union_distrib_left, Finset.card_union_of_disjoint, hd1, hd2,
            Nat.card_Ico]
          exact Finset.disjoint_of_subset_left (by rw [hd1]) (Finset.Ico_disjoint_Ico_consecutive cur b stop)
            |>.mono_right (Finset.inter_subset_right)
        constructor
        · intro q hq
          rw [hs, hmax] at hq
          obtain ⟨h1, h2, h3⟩ := ih1 q hq
          exact ⟨le_trans (le_of_lt hbc) h1, h2, h3⟩
        constructor
        · rw [hs, hmax]; exact ih2
        · rw [hs, hmax, huc, hcard]
          omega

lemma clip_blocks_facts {start stop : Nat} {busy : List (Nat × Nat)}
    (hwf : ∀ p ∈ busy, p.1 ≤ p.2) (hlt : start < stop) :
    ∀ p ∈ clip_blocks start stop busy, start ≤ p.1 ∧ p.1 ≤ p.2 ∧ p.2 ≤ stop := by
  intro p hp
  simp only [clip_blocks, List.mem_map, List.mem_filter] at hp
  obtain ⟨q, ⟨hq, hcond⟩, rfl⟩ := hp
  have hq2 := hwf q hq
  simp only [decide_eq_true_eq] at hcond
  refine ⟨le_max_left _ _, ?_, min_le_left _ _⟩
  omega

lemma mem_insertionSort {l : List (Nat × Nat)} {p : Nat × Nat} :
    p ∈ List.insertionSort byStart l ↔ p ∈ l :=
  (List.perm_insertionSort byStart l).mem_iff

lemma interval_union_perm {l l' : List (Nat × Nat)} (h : l.Perm l') :
    interval_union l = interval_union l' := by
  ext t
  simp only [mem_interval_union]
  constructor <;> rintro ⟨p, hp, hm⟩
  · exact ⟨p, h.mem_iff.mp hp, hm⟩
  · exact ⟨p, h.mem_iff.mpr hp, hm⟩

lemma interval_union_clip {start stop : Nat} {busy : List (Nat × Nat)} :
    interval_union (clip_blocks start stop busy) = clipped_busy_union start stop busy := by
  ext t
  simp only [mem_interval_union, mem_clipped_busy_union]
  constructor
  · rintro ⟨p, hp, hm⟩
    simp only [clip_blocks, List.mem_map, List.mem_filter] at hp
    obtain ⟨q, ⟨hq, _⟩, rfl⟩ := hp
    exact ⟨q, hq, hm⟩
  · rintro ⟨q, hq, hm⟩
    refine ⟨(max start q.1, min stop q.2), ?_, hm⟩
    simp only [clip_blocks, List.mem_map, List.mem_filter]
    refine ⟨q, ⟨hq, ?_⟩, rfl⟩
    simp only [decide_eq_true_eq]
    omega

lemma clipped_busy_union_subset {start stop : Nat} {busy : List (Nat × Nat)} :
    clipped_busy_union start stop busy ⊆ Finset.Ico start stop := by
  intro t ht
  obtain ⟨p, _, hm⟩ := mem_clipped_busy_union.mp ht
  simp only [Finset.mem_Ico]
  omega

lemma clipped_busy_union_degenerate {start stop : Nat} {busy : List (Nat × Nat)}
    (h : stop ≤ start) : clipped_busy_union start stop busy = ∅ := by
  apply Finset.eq_empty_iff_forall_not_mem.mpr
  intro t ht
  obtain ⟨p, _, hm⟩ := mem_clipped_busy_union.mp ht
  omega

/-- C1: for every base interval [start, stop) and every finite list of busy
intervals (each a genuine interval `p.1 ≤ p.2`, but possibly overlapping,
unordered, or extending outside the base), `_subtract_intervals` returns a
list of non-empty, pairwise-disjoint, ascending intervals contained in the
base whose total duration plus the measure of the union of the busy intervals
clipped to the base equals the base duration; a degenerate base yields the
empty list. -/
theorem free_intervals_partition (start stop : Nat) (busy : List (Nat × Nat))
    (hwf : ∀ p ∈ busy, p.1 ≤ p.2) :
    (∀ q ∈ subtract_intervals (start, stop) busy, start ≤ q.1 ∧ q.1 < q.2 ∧ q.2 ≤ stop) ∧
    List.Chain' (fun p q : Nat × Nat => p.2 ≤ q.1) (subtract_intervals (start, stop) busy) ∧
    ((subtract_intervals (start, stop) busy).map (fun q => q.2 - q.1)).sum +
      (clipped_busy_union start stop busy).card = stop - start ∧
    (stop ≤ start → subtract_intervals (start, stop) busy = []) := by
  by_cases hdeg : start ≥ stop
  · have he : subtract_intervals (start, stop) busy = [] := by
      simp [subtract_intervals, hdeg]
    rw [he, clipped_busy_union_degenerate hdeg]
    refine ⟨?_, ?_, ?_, fun _ => rfl⟩
    · intro q hq
      simp at hq
    · simp
    · simp
      omega
  · push_neg at hdeg
    have he : subtract_intervals (start, stop) busy =
        sweep stop start (List.insertionSort byStart (clip_blocks start stop busy)) := by
      simp [subtract_intervals, not_le.mpr hdeg]
    set l := List.insertionSort byStart (clip_blocks start stop busy) with hl
    have hmem : ∀ p ∈ l, start ≤ p.1 ∧ p.1 ≤ p.2 ∧ p.2 ≤ stop := by
      intro p hp
      exact clip_blocks_facts hwf hdeg p (mem_insertionSort.mp hp)
    have hwf2 : ∀ p ∈ l, p.1 ≤ p.2 ∧ p.2 ≤ stop := fun p hp => (hmem p hp).2
    have hsorted : List.Sorted byStart l := List.sorted_insertionSort byStart _
    obtain ⟨h1, h2, h3⟩ := sweep_spec stop l start hwf2 hsorted (le_of_lt hdeg)
    have hu : interval_union l = clipped_busy_union start stop busy := by
      rw [hl, interval_union_perm (List.perm_insertionSort byStart _), interval_union_clip]
    have hsub : clipped_busy_union start stop busy ∩ Finset.Ico start stop
        = clipped_busy_union start stop busy := by
      rw [Finset.inter_eq_left]
      exact clipped_busy_union_subset
    rw [he]
    refine ⟨h1, h2, ?_, ?_⟩
    · rw [hu, hsub] at h3
      exact h3
    · intro h
      exact absurd h (by omega)

/-- Witness for C1 at a concrete base and busy list (overlapping, unordered,
and partly outside the base). -/
theorem free_intervals_partition_witness :
    (∀ p ∈ [((10 : Nat), (20 : Nat)), (5, 12), (90, 200), (300, 400)], p.1 ≤ p.2) ∧
    ((subtract_intervals (0, 100) [(10, 20), (5, 12), (90, 200), (300, 400)]).map
        (fun q => q.2 - q.1)).sum +
      (clipped_busy_union 0 100 [(10, 20), (5, 12), (90, 200), (300, 400)]).card = 100 :=
  ⟨by decide, (free_intervals_partition 0 100 _ (by decide)).2.2.1⟩

/-- C9: snap-to-grid (`_ceil_to_snap` with the fixed 60-minute grid) returns
the smallest instant at or above the input that is an exact multiple of the
grid from midnight with zero second and sub-second components (equivalently,
a multiple of `WEEK_SNAP_MIN * usPerMin` microseconds from the Monday-midnight
epoch, since one hour divides one day); consequently snap is idempotent. -/
theorem snap_to_grid_least_idempotent (t : Nat) :
    t ≤ ceil_to_snap t WEEK_SNAP_MIN ∧
    ceil_to_snap t WEEK_SNAP_MIN % (WEEK_SNAP_MIN * usPerMin) = 0 ∧
    (∀ m, t ≤ m → m % (WEEK_SNAP_MIN * usPerMin) = 0 → ceil_to_snap t WEEK_SNAP_MIN ≤ m) ∧
    ceil_to_snap (ceil_to_snap t WEEK_SNAP_MIN) WEEK_SNAP_MIN = ceil_to_snap t WEEK_SNAP_MIN := by
  have h60 : WEEK_SNAP_MIN = 60 := rfl
  have hgrid : (60 : Nat) * usPerMin = 3600000000 := rfl
  rw [h60, hgrid]
  exact ⟨ceil_to_snap_le t, ceil_to_snap_mod t,
    fun m h1 h2 => ceil_to_snap_least t m h1 h2,
    ceil_to_snap_of_mod _ (ceil_to_snap_mod t)⟩

/-- Witness for C9's minimality clause at a concrete instant and bound. -/
theorem snap_to_grid_witness :
    123456789 ≤ 3600000000 ∧ 3600000000 % (WEEK_SNAP_MIN * usPerMin) = 0 ∧
      ceil_to_snap 123456789 WEEK_SNAP_MIN ≤ 3600000000 :=
  ⟨by decide, by decide,
    (snap_to_grid_least_idempotent 123456789).2.2.1 3600000000 (by decide) (by decide)⟩

/-- models.py ScheduleBlock (a committed TimeBlock).  `stop` models the `end`
column (`end` is a Lean keyword). -/
structure ScheduleBlock where
  id : Nat
  person_id : Nat
  work_item_id : Nat
  start : Nat
  stop : Nat
  locked : Bool
  deriving DecidableEq

/-- models.py TimeOff.  `stop` models the `end` column. -/
structure TimeOff where
  person_id : Nat
  start : Nat
  stop : Nat
  deriving DecidableEq

/-- The persisted store as seen by the scheduler: the ScheduleBlock and
TimeOff tables plus the next autoincrement id. -/
structure Db where
  blocks : List ScheduleBlock
  offs : List TimeOff
  next_id : Nat
  deriving DecidableEq

/-- The loop state of `auto_schedule_next_available_same_person`: the store
(each committed block is persisted immediately), the cursor, the remaining
minutes, and the blocks created by this run in creation order. -/
structure SchedState where
  db : Db
  cursor : Nat
  remaining : Nat
  created : List ScheduleBlock
  deriving DecidableEq

/-- The free-interval scan inside the scheduler loop: find the first free
interval whose snapped start `max(a, cursor)` ceiled to the grid still lies
strictly before the interval end and admits a whole positive number of grid
units; return that start and the block length in minutes. -/
def find_slot (cursor remaining : Nat) : List (Nat × Nat) → Option (Nat × Nat)
  | [] => none
  | (a, b) :: rest =>
    let start := ceil_to_snap (max a cursor) WEEK_SNAP_MIN
    if start ≥ b then find_slot cursor remaining rest
    else
      let avail_min := ((b - start) / usPerMin / WEEK_SNAP_MIN) * WEEK_SNAP_MIN
      if avail_min = 0 then find_slot cursor remaining rest
      else
        let block_min := (min remaining avail_min / WEEK_SNAP_MIN) * WEEK_SNAP_MIN
        if block_min = 0 then find_slot cursor remaining rest
        else some (start, block_min)

/-- The busy intervals the scheduler gathers for the cursor's day: every
ScheduleBlock of the person overlapping the day's work window (the
`b.locked is False or b.locked is True` guard of the Python code accepts
every block, locked or not), followed by every overlapping TimeOff. -/
def day_busy (person_id : Nat) (p : Person) (st : SchedState) : List (Nat × Nat) :=
  ((st.db.blocks.filter (fun b =>
      b.person_id = person_id ∧ (day_bounds p st.cursor).1 < b.stop ∧
        b.start < (day_bounds p st.cursor).2)).filter
    (fun b => b.locked = false ∨ b.locked = true)).map (fun b => (b.start, b.stop)) ++
  (st.db.offs.filter (fun o =>
      o.person_id = person_id ∧ (day_bounds p st.cursor).1 < o.stop ∧
        o.start < (day_bounds p st.cursor).2)).map (fun o => (o.start, o.stop))

/-- The free intervals of the cursor's day. -/
def day_free (person_id : Nat) (p : Person) (st : SchedState) : List (Nat × Nat) :=
  subtract_intervals ((day_bounds p st.cursor).1, (day_bounds p st.cursor).2)
    (day_busy person_id p st)

def clamp_cursor (c day_start : Nat) : Nat := if c < day_start then day_start else c

/-- One iteration of the scheduler's while loop.  When the loop guard
`remaining > 0 and cursor < end_horizon` fails the state is returned
unchanged, so iterating this step any number of times past the loop's natural
termination point is harmless.
Branches, in the order of the Python code: non-workday cursor advances to
08:00 next day; a cursor past the day end advances to the next day's work
start (`(day_start + timedelta(days=1)).replace(hour=day_start.hour,
minute=day_start.minute)` equals `day_start + usPerDay` because `day_start`
already carries exactly those hour/minute fields); otherwise the day's busy
intervals are gathered (blocks regardless of `locked`, then time off), the
free intervals computed, and the first placement (if any) commits a block,
decrements `remaining`, and moves the cursor to the block end. -/
def step_once (p : Person) (work_item_id person_id : Nat) (end_horizon : Nat)
    (st : SchedState) : SchedState :=
  if 0 < st.remaining ∧ st.cursor < end_horizon then
    if ¬ is_workday p st.cursor then
      { st with cursor := (st.cursor / usPerDay) * usPerDay + usPerDay + 480 * usPerMin }
    else
      let day_start := (day_bounds p st.cursor).1
      let day_end := (day_bounds p st.cursor).2
      let cursor := clamp_cursor st.cursor day_start
      if cursor ≥ day_end then { st with cursor := day_start + usPerDay }
      else
        match find_slot cursor st.remaining (day_free person_id p st) with
        | some sb =>
          let nb : ScheduleBlock :=
            { id := st.db.next_id, person_id := person_id, work_item_id := work_item_id,
              start := sb.1, stop := sb.1 + sb.2 * usPerMin, locked := false }
          { db := { blocks := st.db.blocks ++ [nb], offs := st.db.offs,
                    next_id := st.db.next_id + 1 },
            cursor := nb.stop, remaining := st.remaining - sb.2,
            created := st.created ++ [nb] }
        | none => { st with cursor := day_start + usPerDay }
  else st

/-- The scheduler's while loop as a fuelled iteration of `step_once`. -/
def loop_iter (p : Person) (work_item_id person_id end_horizon : Nat) :
    Nat → SchedState → SchedState
  | 0, st => st
  | fuel + 1, st =>
    loop_iter p work_item_id person_id end_horizon fuel
      (step_once p work_item_id person_id end_horizon st)

/-- The minutes already scheduled for this work item and person:
`sum(int((b.end - b.start).total_seconds() // 60) for b in existing)`
(durations are non-negative for well-formed blocks, which is all the claims
quantify over). -/
def scheduled_minutes (db : Db) (work_item_id person_id : Nat) : Nat :=
  ((db.blocks.filter (fun b =>
      b.work_item_id = work_item_id ∧ b.person_id = person_id)).map
    (fun b => (b.stop - b.start) / usPerMin)).sum

/-- Embedding of scheduler.py `auto_schedule_next_available_same_person`.
`total_minutes` stands for the looked-up `wi.total_minutes`.  The initial
remaining minutes are `max(0, wi.total_minutes - scheduled)`; the cursor is
the snapped `from_dt`; the horizon is `cursor + timedelta(weeks=horizon_weeks)`.
The while loop is modelled by iterating `step_once` a fixed generous number of
times: each iteration either moves the cursor to a later day or commits a
block of at least one grid hour inside the current day, so at most 25
iterations happen per calendar day inside the horizon, and `step_once` is the
identity once the loop guard fails.  The final state carries the created
blocks (in creation order) and the resulting remaining minutes. -/
def auto_schedule_next_available_same_person (db : Db) (p : Person)
    (total_minutes work_item_id person_id from_dt horizon_weeks : Nat) : SchedState :=
  let scheduled := scheduled_minutes db work_item_id person_id
  let remaining := (max 0 ((total_minutes : Int) - (scheduled : Int))).toNat
  let cursor := ceil_to_snap from_dt WEEK_SNAP_MIN
  let end_horizon := cursor + horizon_weeks * 7 * usPerDay
  loop_iter p work_item_id person_id end_horizon (horizon_weeks * 7 * 30 + 30)
    { db := db, cursor := cursor, remaining := remaining, created := [] }

lemma clamp_cursor_le (c ds : Nat) : c ≤ clamp_cursor c ds := by
  unfold clamp_cursor; split <;> omega

/-- Any slot found by the free-interval scan starts at or after the cursor on
an hour boundary and has a positive whole number of grid hours, at most the
remaining minutes. -/
lemma find_slot_spec {cursor remaining : Nat} {free : List (Nat × Nat)} {s bm : Nat}
    (h : find_slot cursor remaining free = some (s, bm)) :
    cursor ≤ s ∧ s % 3600000000 = 0 ∧ bm % 60 = 0 ∧ 60 ≤ bm ∧ bm ≤ remaining := by
  induction free with
  | nil => simp [find_slot] at h
  | cons hd rest ih =>
    obtain ⟨a, b⟩ := hd
    simp only [find_slot, WEEK_SNAP_MIN] at h
    split_ifs at h with h1 h2 h3
    · exact ih h
    · exact ih h
    · exact ih h
    · simp only [Option.some.injEq, Prod.mk.injEq] at h
      obtain ⟨rfl, rfl⟩ := h
      refine ⟨le_trans (le_max_right a cursor) (ceil_to_snap_le _), ceil_to_snap_mod _,
        ?_, ?_, ?_⟩ <;> omega

lemma day_bounds_fst (p : Person) (c : Nat) :
    (day_bounds p c).1 = (c / usPerDay) * usPerDay + p.work_start * usPerMin := rfl

lemma day_bounds_snd (p : Person) (c : Nat) :
    (day_bounds p c).2 = (c / usPerDay) * usPerDay + p.work_end * usPerMin := rfl

/-- Shape of one scheduler iteration: either no block is committed and only
the cursor moves (forward), or exactly one block is committed, carrying the
scanned work item and person, starting on an hour boundary at or after the
cursor, lasting a positive whole number of grid hours no longer than the
remaining minutes, with the cursor moving to the block end and the remaining
minutes decreasing by exactly the block length. -/
lemma step_once_shape (p : Person) (wid pid hz : Nat) (st : SchedState) :
    ((step_once p wid pid hz st).created = st.created ∧
     (step_once p wid pid hz st).db = st.db ∧
     (step_once p wid pid hz st).remaining = st.remaining ∧
     st.cursor ≤ (step_once p wid pid hz st).cursor) ∨
    (∃ nb : ScheduleBlock,
      (step_once p wid pid hz st).created = st.created ++ [nb] ∧
      (step_once p wid pid hz st).db.blocks = st.db.blocks ++ [nb] ∧
      (step_once p wid pid hz st).db.offs = st.db.offs ∧
      (step_once p wid pid hz st).cursor = nb.stop ∧
      nb.work_item_id = wid ∧ nb.person_id = pid ∧
      st.cursor ≤ nb.start ∧ nb.start % 3600000000 = 0 ∧
      (nb.stop - nb.start) % 3600000000 = 0 ∧ 3600000000 ≤ nb.stop - nb.start ∧
      (nb.stop - nb.start) / usPerMin ≤ st.remaining ∧
      (step_once p wid pid hz st).remaining + (nb.stop - nb.start) / usPerMin
        = st.remaining) := by
  simp only [step_once]
  by_cases hguard : 0 < st.remaining ∧ st.cursor < hz
  · rw [if_pos hguard]
    by_cases hwd : is_workday p st.cursor = true
    · rw [if_neg (by simp [hwd])]
      by_cases hde : clamp_cursor st.cursor (day_bounds p st.cursor).1 ≥ (day_bounds p st.cursor).2
      · rw [if_pos hde]
        left
        refine ⟨rfl, rfl, rfl, ?_⟩
        simp only [day_bounds_fst, usPerDay, usPerMin]
        omega
      · rw [if_neg hde]
        rcases heq : find_slot (clamp_cursor st.cursor (day_bounds p st.cursor).1) st.remaining
            (day_free pid p st)
          with _ | sb
        · left
          refine ⟨rfl, rfl, rfl, ?_⟩
          show st.cursor ≤ (day_bounds p st.cursor).1 + usPerDay
          simp only [day_bounds_fst, usPerDay, usPerMin]
          omega
        · obtain ⟨s, bm⟩ := sb
          obtain ⟨h1, h2, h3, h4, h5⟩ := find_slot_spec heq
          right
          refine ⟨⟨st.db.next_id, pid, wid, s, s + bm * usPerMin, false⟩,
            rfl, rfl, rfl, rfl, rfl, rfl, ?_, h2, ?_, ?_, ?_, ?_⟩
          · exact le_trans (clamp_cursor_le _ _) h1
          · show (s + bm * usPerMin - s) % 3600000000 = 0
            simp only [usPerMin]
            omega
          · show 3600000000 ≤ s + bm * usPerMin - s
            simp only [usPerMin]
            omega
          · show (s + bm * usPerMin - s) / usPerMin ≤ st.remaining
            simp only [usPerMin]
            omega
          · show st.remaining - bm + (s + bm * usPerMin - s) / usPerMin = st.remaining
            simp only [usPerMin]
            omega
    · rw [if_pos (by simp [hwd])]
      left
      refine ⟨rfl, rfl, rfl, ?_⟩
      simp only [usPerDay, usPerMin]
      omega
  · rw [if_neg hguard]
    exact Or.inl ⟨rfl, rfl, rfl, le_rfl⟩

/-- The run invariant of the scheduler loop, relative to the initial store
`db0` and the initial remaining minutes `r0`: created blocks are appended to
the store, belong to the scanned work item and person, end before the cursor,
start on hour boundaries, last positive whole multiples of the grid, are
pairwise ordered and disjoint in creation order, and together with the
remaining minutes conserve `r0`. -/
def sched_inv (db0 : Db) (wid pid r0 : Nat) (st : SchedState) : Prop :=
  st.db.blocks = db0.blocks ++ st.created ∧
  st.db.offs = db0.offs ∧
  (∀ b ∈ st.created, b.work_item_id = wid ∧ b.person_id = pid ∧ b.stop ≤ st.cursor ∧
    b.start % 3600000000 = 0 ∧ (b.stop - b.start) % 3600000000 = 0 ∧
    3600000000 ≤ b.stop - b.start) ∧
  List.Pairwise (fun b1 b2 : ScheduleBlock => b1.stop ≤ b2.start) st.created ∧
  st.remaining + ((st.created.map (fun b => (b.stop - b.start) / usPerMin)).sum) = r0

lemma sched_inv_step (p : Person) {db0 : Db} {wid pid r0 hz : Nat} {st : SchedState}
    (h : sched_inv db0 wid pid r0 st) :
    sched_inv db0 wid pid r0 (step_once p wid pid hz st) := by
  obtain ⟨hb, ho, hc, hpw, hr⟩ := h
  rcases step_once_shape p wid pid hz st with ⟨e1, e2, e3, e4⟩ |
    ⟨nb, e1, e2, e3, e4, e5, e6, e7, e8, e9, e10, e11, e12⟩
  · refine ⟨by rw [e1, e2]; exact hb, by rw [e2]; exact ho, ?_, by rw [e1]; exact hpw,
      by rw [e1, e3]; exact hr⟩
    intro b hbm
    rw [e1] at hbm
    obtain ⟨g1, g2, g3, g4, g5, g6⟩ := hc b hbm
    exact ⟨g1, g2, le_trans g3 e4, g4, g5, g6⟩
  · have hss : nb.start ≤ nb.stop := by omega
    refine ⟨?_, by rw [e3]; exact ho, ?_, ?_, ?_⟩
    · rw [e1, e2, hb, List.append_assoc]
    · intro b hbm
      rw [e1] at hbm
      rcases List.mem_append.mp hbm with hm | hm
      · obtain ⟨g1, g2, g3, g4, g5, g6⟩ := hc b hm
        refine ⟨g1, g2, ?_, g4, g5, g6⟩
        rw [e4]
        exact le_trans g3 (le_trans e7 hss)
      · rw [List.mem_singleton] at hm
        subst hm
        exact ⟨e5, e6, le_of_eq e4.symm, e8, e9, e10⟩
    · rw [e1, List.pairwise_append]
      refine ⟨hpw, List.pairwise_singleton _ _, ?_⟩
      intro b hbm b' hb'
      rw [List.mem_singleton] at hb'
      subst hb'
      exact le_trans (hc b hbm).2.2.1 e7
    · rw [e1]
      simp only [List.map_append, List.map_cons, List.map_nil, List.sum_append,
        List.sum_cons, List.sum_nil]
      omega

lemma sched_inv_loop (p : Person) (wid pid hz : Nat) {db0 : Db} {r0 : Nat} :
    ∀ (fuel : Nat) (st : SchedState), sched_inv db0 wid pid r0 st →
      sched_inv db0 wid pid r0 (loop_iter p wid pid hz fuel st)
  | 0, _, h => h
  | fuel + 1, _, h => sched_inv_loop p wid pid hz fuel _ (sched_inv_step p h)

/-- The initial remaining minutes of a run:
`max(0, wi.total_minutes - scheduled)`. -/
def init_remaining (db : Db) (total wid pid : Nat) : Nat :=
  (max 0 ((total : Int) - (scheduled_minutes db wid pid : Int))).toNat

lemma auto_schedule_inv (db : Db) (p : Person) (total wid pid from_dt weeks : Nat) :
    sched_inv db wid pid (init_remaining db total wid pid)
      (auto_schedule_next_available_same_person db p total wid pid from_dt weeks) := by
  apply sched_inv_loop
  exact ⟨(List.append_nil _).symm, rfl, by intro b hb; simp at hb, List.Pairwise.nil, by simp [init_remaining]⟩

lemma dur_sum_mod (l : List ScheduleBlock)
    (h : ∀ b ∈ l, (b.stop - b.start) % 3600000000 = 0) :
    ((l.map (fun b => (b.stop - b.start) / usPerMin)).sum) % 60 = 0 := by
  induction l with
  | nil => simp
  | cons hd rest ih =>
    simp only [List.map_cons, List.sum_cons]
    have h1 := h hd (List.mem_cons_self _ _)
    have h2 := ih (fun b hb => h b (List.mem_cons_of_mem _ hb))
    simp only [usPerMin] at h2 ⊢
    omega

/-- C3: within one auto-schedule run the created blocks, in creation order,
are pairwise non-overlapping (each block starts at or after the previous
block's end), have strictly increasing starts, start on round-hour
boundaries, and last a positive whole multiple of the 60-minute grid. -/
theorem auto_schedule_blocks_ordered_on_grid (db : Db) (p : Person)
    (total wid pid from_dt weeks : Nat) :
    List.Pairwise (fun b1 b2 : ScheduleBlock => b1.stop ≤ b2.start)
      (auto_schedule_next_available_same_person db p total wid pid from_dt weeks).created ∧
    List.Pairwise (fun b1 b2 : ScheduleBlock => b1.start < b2.start)
      (auto_schedule_next_available_same_person db p total wid pid from_dt weeks).created ∧
    ∀ b ∈ (auto_schedule_next_available_same_person db p total wid pid from_dt weeks).created,
      b.start % (WEEK_SNAP_MIN * usPerMin) = 0 ∧
      (b.stop - b.start) % (WEEK_SNAP_MIN * usPerMin) = 0 ∧
      WEEK_SNAP_MIN * usPerMin ≤ b.stop - b.start := by
  obtain ⟨_, _, hc, hpw, _⟩ := auto_schedule_inv db p total wid pid from_dt weeks
  have hg : WEEK_SNAP_MIN * usPerMin = 3600000000 := rfl
  rw [hg]
  refine ⟨hpw, ?_, ?_⟩
  · refine List.Pairwise.imp_of_mem ?_ hpw
    intro a b ha _ hr
    have h6 := (hc a ha).2.2.2.2.2
    omega
  · intro b hb
    obtain ⟨_, _, _, g4, g5, g6⟩ := hc b hb
    exact ⟨g4, g5, g6⟩

/-- C4: after any auto-schedule run, the returned remaining minutes equal
`max(0, totalMinutes - Σ minute-durations of all blocks tied to that work
item and person in the final store)` — the final store holds exactly the
pre-existing blocks plus the blocks created by the run. -/
theorem auto_schedule_remaining_conservation (db : Db) (p : Person)
    (total wid pid from_dt weeks : Nat) :
    ((auto_schedule_next_available_same_person db p total wid pid from_dt weeks).remaining : Int)
      = max 0 ((total : Int) - (scheduled_minutes
          (auto_schedule_next_available_same_person db p total wid pid from_dt weeks).db
          wid pid : Int)) := by
  obtain ⟨hb, _, hc, _, hr⟩ := auto_schedule_inv db p total wid pid from_dt weeks
  have hfil : (auto_schedule_next_available_same_person db p total wid pid from_dt weeks).db.blocks.filter
        (fun b => decide (b.work_item_id = wid ∧ b.person_id = pid))
      = db.blocks.filter (fun b => decide (b.work_item_id = wid ∧ b.person_id = pid)) ++
        (auto_schedule_next_available_same_person db p total wid pid from_dt weeks).created := by
    rw [hb, List.filter_append]
    congr 1
    apply List.filter_eq_self.mpr
    intro b hbm
    have hf := hc b hbm
    simp [hf.1, hf.2.1]
  have hsch : scheduled_minutes
        (auto_schedule_next_available_same_person db p total wid pid from_dt weeks).db wid pid
      = scheduled_minutes db wid pid +
        (((auto_schedule_next_available_same_person db p total wid pid from_dt weeks).created.map
          (fun b => (b.stop - b.start) / usPerMin)).sum) := by
    simp only [scheduled_minutes]
    rw [hfil, List.map_append, List.sum_append]
  rw [hsch]
  have hr0 : init_remaining db total wid pid
      = (max 0 ((total : Int) - (scheduled_minutes db wid pid : Int))).toNat := rfl
  rw [init_remaining] at hr
  omega

/-- C10: the remaining-minutes counter is invariant modulo the 60-minute
grid across a run: the returned value is congruent mod 60 to the initial
`max(0, totalMinutes - previously scheduled minutes)`, so when that initial
remainder is not a multiple of 60 the run can never return 0. -/
theorem auto_schedule_remaining_mod_grid (db : Db) (p : Person)
    (total wid pid from_dt weeks : Nat) :
    (auto_schedule_next_available_same_person db p total wid pid from_dt weeks).remaining % 60
        = init_remaining db total wid pid % 60 ∧
      (init_remaining db total wid pid % 60 ≠ 0 →
        (auto_schedule_next_available_same_person db p total wid pid from_dt weeks).remaining ≠ 0) := by
  obtain ⟨_, _, hc, _, hr⟩ := auto_schedule_inv db p total wid pid from_dt weeks
  have hs := dur_sum_mod _ (fun b hb => (hc b hb).2.2.2.2.1)
  exact ⟨by omega, fun hne => by omega⟩

/-- C2 (amended): one iteration of the scheduler's while loop creates at most
one block; after a commit the free-interval scan of the day stops and the
cursor resumes at the block's end.  (The loop may then re-enter the same
calendar day, so one run can create several blocks on the same date — see the
counterexample.) -/
theorem one_block_per_free_scan (p : Person) (wid pid hz : Nat) (st : SchedState) :
    (step_once p wid pid hz st).created = st.created ∨
    ∃ nb : ScheduleBlock, (step_once p wid pid hz st).created = st.created ++ [nb] ∧
      (step_once p wid pid hz st).cursor = nb.stop := by
  rcases step_once_shape p wid pid hz st with ⟨e1, _, _, _⟩ |
    ⟨nb, e1, _, _, e4, _⟩
  · exact Or.inl e1
  · exact Or.inr ⟨nb, e1, e4⟩

/-- Monday-to-Friday 08:00-17:00 profile used by the concrete scenarios. -/
def pMF : Person := ⟨[0, 1, 2, 3, 4], 480, 1020⟩

/-- Store for the C2 counterexample: one time-off interval Monday
10:00-11:00 (day 0 of the epoch week), nothing else. -/
def dbC2 : Db := ⟨[], [⟨1, 600 * usPerMin, 660 * usPerMin⟩], 1⟩

set_option maxRecDepth 10000 in
/-- C2 counterexample: scheduling a 600-minute item for the Monday-Friday
person from Monday 08:00 with a 10:00-11:00 time off creates blocks
[08:00, 10:00), [11:00, 17:00) and Tuesday [08:00, 10:00): the first two
start on the same calendar date (day 0), refuting "no two blocks created by
the same run start on the same calendar date". -/
theorem two_blocks_same_day_counterexample :
    ((auto_schedule_next_available_same_person dbC2 pMF 600 1 1 (480 * usPerMin) 1).created.map
        (fun b => b.start / usPerDay)) = [0, 0, 1] ∧
    ¬ List.Pairwise (fun b1 b2 : ScheduleBlock => b1.start / usPerDay ≠ b2.start / usPerDay)
      (auto_schedule_next_available_same_person dbC2 pMF 600 1 1 (480 * usPerMin) 1).created := by
  exact ⟨by decide, by decide⟩

/-- An empty store. -/
def dbEmpty : Db := ⟨[], [], 1⟩

set_option maxRecDepth 10000 in
/-- Witness for C10: an item of 90 minutes with nothing scheduled has initial
remainder 30 mod 60, and a week-long run over free Mondays-Fridays indeed
returns a nonzero remainder. -/
theorem auto_schedule_remaining_mod_grid_witness :
    init_remaining dbEmpty 90 1 1 % 60 ≠ 0 ∧
    (auto_schedule_next_available_same_person dbEmpty pMF 90 1 1 (480 * usPerMin) 1).remaining ≠ 0 :=
  ⟨by decide,
    (auto_schedule_remaining_mod_grid dbEmpty pMF 90 1 1 (480 * usPerMin) 1).2 (by decide)⟩

/-- The free-interval scan is insensitive to a surplus of remaining minutes:
when every free interval of the list is at most `r` minutes long, scanning
with `r + d` remaining minutes gives the same result as with `r`. -/
lemma find_slot_shift (cursor r d : Nat) :
    ∀ free : List (Nat × Nat), (∀ q ∈ free, (q.2 - q.1) / usPerMin ≤ r) →
      find_slot cursor (r + d) free = find_slot cursor r free := by
  intro free
  induction free with
  | nil => intro _; rfl
  | cons hd rest ih =>
    intro h
    obtain ⟨a, b⟩ := hd
    have hd1 : (b - a) / usPerMin ≤ r := h (a, b) (List.mem_cons_self _ _)
    have hrest := fun q hq => h q (List.mem_cons_of_mem _ hq)
    simp only [find_slot, WEEK_SNAP_MIN]
    by_cases h1 : ceil_to_snap (max a cursor) 60 ≥ b
    · rw [if_pos h1, if_pos h1, ih hrest]
    · rw [if_neg h1, if_neg h1]
      have hsa : a ≤ ceil_to_snap (max a cursor) 60 :=
        le_trans (le_max_left a cursor) (ceil_to_snap_le _)
      have havail : ((b - ceil_to_snap (max a cursor) 60) / usPerMin / 60) * 60 ≤ r := by
        have hba : b - ceil_to_snap (max a cursor) 60 ≤ b - a := by omega
        have hdd : (b - ceil_to_snap (max a cursor) 60) / usPerMin ≤ (b - a) / usPerMin :=
          Nat.div_le_div_right hba
        omega
      by_cases h2 : ((b - ceil_to_snap (max a cursor) 60) / usPerMin / 60) * 60 = 0
      · rw [if_pos h2, if_pos h2, ih hrest]
      · rw [if_neg h2, if_neg h2]
        have hmin : min (r + d) (((b - ceil_to_snap (max a cursor) 60) / usPerMin / 60) * 60)
            = min r (((b - ceil_to_snap (max a cursor) 60) / usPerMin / 60) * 60) := by
          omega
        rw [hmin]
        by_cases h3 : (min r (((b - ceil_to_snap (max a cursor) 60) / usPerMin / 60) * 60) / 60)
            * 60 = 0
        · rw [if_pos h3, if_pos h3, ih hrest]
        · rw [if_neg h3, if_neg h3]

/-- A state with `d` surplus remaining minutes. -/
def shift_rem (st : SchedState) (d : Nat) : SchedState :=
  { st with remaining := st.remaining + d }

/-- One scheduler iteration commutes with a surplus of remaining minutes,
provided the loop guard does not hinge on the surplus (`cursor < horizon`
implies the un-shifted remaining is already positive) and no free interval of
the cursor's day is longer than the un-shifted remaining minutes (so
`min(remaining, avail)` never selects the remaining side). -/
lemma step_once_shift (p : Person) (wid pid hz : Nat) (st : SchedState) (d : Nat)
    (hg : st.cursor < hz → 0 < st.remaining)
    (hf : is_workday p st.cursor = true →
      clamp_cursor st.cursor (day_bounds p st.cursor).1 < (day_bounds p st.cursor).2 →
      ∀ q ∈ day_free pid p st, (q.2 - q.1) / usPerMin ≤ st.remaining) :
    step_once p wid pid hz (shift_rem st d)
      = shift_rem (step_once p wid pid hz st) d := by
  obtain ⟨db, c, r, cr⟩ := st
  dsimp only [shift_rem] at hg hf ⊢
  have hdf : day_free pid p ⟨db, c, r + d, cr⟩ = day_free pid p ⟨db, c, r, cr⟩ := rfl
  by_cases hc : c < hz
  · have hr : 0 < r := hg hc
    simp only [step_once, hdf]
    rw [if_pos (show 0 < r + d ∧ c < hz from ⟨by omega, hc⟩),
      if_pos (show 0 < r ∧ c < hz from ⟨hr, hc⟩)]
    by_cases hwd : is_workday p c = true
    · rw [if_neg (show ¬ ¬ is_workday p c = true by simp [hwd]),
        if_neg (show ¬ ¬ is_workday p c = true by simp [hwd])]
      by_cases hde : clamp_cursor c (day_bounds p c).1 ≥ (day_bounds p c).2
      · rw [if_pos hde, if_pos hde]
      · rw [if_neg hde, if_neg hde]
        rw [find_slot_shift _ _ _ _ (hf hwd (by omega))]
        rcases heq : find_slot (clamp_cursor c (day_bounds p c).1) r
            (day_free pid p ⟨db, c, r, cr⟩) with _ | sb
        · rfl
        · obtain ⟨s, bm⟩ := sb
          obtain ⟨_, _, _, _, h5⟩ := find_slot_spec heq
          show SchedState.mk _ _ (r + d - bm) _ = SchedState.mk _ _ (r - bm + d) _
          congr 1
          omega
    · rw [if_pos (show ¬ is_workday p c = true from hwd),
        if_pos (show ¬ is_workday p c = true from hwd)]
  · simp only [step_once]
    rw [if_neg (show ¬ (0 < r + d ∧ c < hz) from fun hcon => hc hcon.2),
      if_neg (show ¬ (0 < r ∧ c < hz) from fun hcon => hc hcon.2)]

lemma loop_iter_succ (p : Person) (wid pid hz fuel : Nat) (st : SchedState) :
    loop_iter p wid pid hz (fuel + 1) st
      = loop_iter p wid pid hz fuel (step_once p wid pid hz st) := rfl

lemma step_once_id_of_horizon (p : Person) (wid pid hz : Nat) (st : SchedState)
    (h : hz ≤ st.cursor) : step_once p wid pid hz st = st := by
  simp only [step_once]
  rw [if_neg (show ¬ (0 < st.remaining ∧ st.cursor < hz) from fun hcon => absurd hcon.2 (not_lt.mpr h))]

lemma loop_iter_of_fixed (p : Person) (wid pid hz : Nat) {st : SchedState}
    (h : step_once p wid pid hz st = st) :
    ∀ n, loop_iter p wid pid hz n st = st
  | 0 => rfl
  | n + 1 => by
    rw [loop_iter_succ, h]
    exact loop_iter_of_fixed p wid pid hz h n

lemma loop_iter_shift_fixed (p : Person) (wid pid hz n : Nat) (st : SchedState) (d : Nat)
    (h : hz ≤ st.cursor) :
    loop_iter p wid pid hz n (shift_rem st d) = shift_rem st d :=
  loop_iter_of_fixed p wid pid hz (step_once_id_of_horizon p wid pid hz (shift_rem st d) h) n

/-- Peel one loop iteration off a run with surplus remaining minutes. -/
lemma loop_shift_peel (p : Person) (wid pid hz fuel : Nat) (st : SchedState) (d : Nat)
    (hg : st.cursor < hz → 0 < st.remaining)
    (hf : is_workday p st.cursor = true →
      clamp_cursor st.cursor (day_bounds p st.cursor).1 < (day_bounds p st.cursor).2 →
      ∀ q ∈ day_free pid p st, (q.2 - q.1) / usPerMin ≤ st.remaining) :
    loop_iter p wid pid hz (fuel + 1) (shift_rem st d)
      = loop_iter p wid pid hz fuel (shift_rem (step_once p wid pid hz st) d) := by
  rw [loop_iter_succ, step_once_shift p wid pid hz st d hg hf]

/-- The base trajectory of spec Scenario C (horizon one week, Monday-Friday
08:00-17:00 person, empty store, exactly 2701 minutes requested): the loop
state after `n` iterations. -/
def C5S : Nat → SchedState
  | 0 => ⟨dbEmpty, 480 * usPerMin, 2701, []⟩
  | n + 1 => step_once pMF 1 1 (10560 * usPerMin) (C5S n)

/-- The block committed on day `d` (0 = the starting Monday) with id `i` in
the Scenario C runs: the full work window 08:00-17:00 of that day. -/
def blkC5 (i d : Nat) : ScheduleBlock :=
  ⟨i, 1, 1, (1440 * d + 480) * usPerMin, (1440 * d + 1020) * usPerMin, false⟩

set_option maxRecDepth 40000 in
lemma c5_start (k : Nat) :
    auto_schedule_next_available_same_person dbEmpty pMF (2701 + k) 1 1 (480 * usPerMin) 1
      = loop_iter pMF 1 1 (10560 * usPerMin) 240 (shift_rem (C5S 0) k) := by
  have hc : ceil_to_snap (480 * usPerMin) WEEK_SNAP_MIN = 480 * usPerMin := by decide
  have h00 : scheduled_minutes dbEmpty 1 1 = 0 := rfl
  have hr : (max 0 (((2701 + k : Nat) : Int) - (scheduled_minutes dbEmpty 1 1 : Int))).toNat
      = 2701 + k := by
    rw [h00]
    omega
  simp only [auto_schedule_next_available_same_person, hc, hr, shift_rem, C5S]
  norm_num [usPerDay, usPerMin]

set_option maxRecDepth 40000 in
lemma c5_chain (k : Nat) :
    loop_iter pMF 1 1 (10560 * usPerMin) 240 (shift_rem (C5S 0) k)
      = shift_rem (C5S 12) k := by
  have p0 : loop_iter pMF 1 1 (10560 * usPerMin) 240 (shift_rem (C5S 0) k)
      = loop_iter pMF 1 1 (10560 * usPerMin) 239 (shift_rem (C5S 1) k) :=
    loop_shift_peel pMF 1 1 (10560 * usPerMin) 239 (C5S 0) k (by decide) (by decide)
  have p1 : loop_iter pMF 1 1 (10560 * usPerMin) 239 (shift_rem (C5S 1) k)
      = loop_iter pMF 1 1 (10560 * usPerMin) 238 (shift_rem (C5S 2) k) :=
    loop_shift_peel pMF 1 1 (10560 * usPerMin) 238 (C5S 1) k (by decide) (by decide)
  have p2 : loop_iter pMF 1 1 (10560 * usPerMin) 238 (shift_rem (C5S 2) k)
      = loop_iter pMF 1 1 (10560 * usPerMin) 237 (shift_rem (C5S 3) k) :=
    loop_shift_peel pMF 1 1 (10560 * usPerMin) 237 (C5S 2) k (by decide) (by decide)
  have p3 : loop_iter pMF 1 1 (10560 * usPerMin) 237 (shift_rem (C5S 3) k)
      = loop_iter pMF 1 1 (10560 * usPerMin) 236 (shift_rem (C5S 4) k) :=
    loop_shift_peel pMF 1 1 (10560 * usPerMin) 236 (C5S 3) k (by decide) (by decide)
  have p4 : loop_iter pMF 1 1 (10560 * usPerMin) 236 (shift_rem (C5S 4) k)
      = loop_iter pMF 1 1 (10560 * usPerMin) 235 (shift_rem (C5S 5) k) :=
    loop_shift_peel pMF 1 1 (10560 * usPerMin) 235 (C5S 4) k (by decide) (by decide)
  have p5 : loop_iter pMF 1 1 (10560 * usPerMin) 235 (shift_rem (C5S 5) k)
      = loop_iter pMF 1 1 (10560 * usPerMin) 234 (shift_rem (C5S 6) k) :=
    loop_shift_peel pMF 1 1 (10560 * usPerMin) 234 (C5S 5) k (by decide) (by decide)
  have p6 : loop_iter pMF 1 1 (10560 * usPerMin) 234 (shift_rem (C5S 6) k)
      = loop_iter pMF 1 1 (10560 * usPerMin) 233 (shift_rem (C5S 7) k) :=
    loop_shift_peel pMF 1 1 (10560 * usPerMin) 233 (C5S 6) k (by decide) (by decide)
  have p7 : loop_iter pMF 1 1 (10560 * usPerMin) 233 (shift_rem (C5S 7) k)
      = loop_iter pMF 1 1 (10560 * usPerMin) 232 (shift_rem (C5S 8) k) :=
    loop_shift_peel pMF 1 1 (10560 * usPerMin) 232 (C5S 7) k (by decide) (by decide)
  have p8 : loop_iter pMF 1 1 (10560 * usPerMin) 232 (shift_rem (C5S 8) k)
      = loop_iter pMF 1 1 (10560 * usPerMin) 231 (shift_rem (C5S 9) k) :=
    loop_shift_peel pMF 1 1 (10560 * usPerMin) 231 (C5S 8) k (by decide) (by decide)
  have p9 : loop_iter pMF 1 1 (10560 * usPerMin) 231 (shift_rem (C5S 9) k)
      = loop_iter pMF 1 1 (10560 * usPerMin) 230 (shift_rem (C5S 10) k) :=
    loop_shift_peel pMF 1 1 (10560 * usPerMin) 230 (C5S 9) k (by decide) (by decide)
  have p10 : loop_iter pMF 1 1 (10560 * usPerMin) 230 (shift_rem (C5S 10) k)
      = loop_iter pMF 1 1 (10560 * usPerMin) 229 (shift_rem (C5S 11) k) :=
    loop_shift_peel pMF 1 1 (10560 * usPerMin) 229 (C5S 10) k (by decide) (by decide)
  have p11 : loop_iter pMF 1 1 (10560 * usPerMin) 229 (shift_rem (C5S 11) k)
      = loop_iter pMF 1 1 (10560 * usPerMin) 228 (shift_rem (C5S 12) k) :=
    loop_shift_peel pMF 1 1 (10560 * usPerMin) 228 (C5S 11) k (by decide) (by decide)
  have pend : loop_iter pMF 1 1 (10560 * usPerMin) 228 (shift_rem (C5S 12) k)
      = shift_rem (C5S 12) k :=
    loop_iter_shift_fixed pMF 1 1 (10560 * usPerMin) 228 (C5S 12) k (by decide)
  rw [p0, p1, p2, p3, p4, p5, p6, p7, p8, p9, p10, p11, pend]

set_option maxRecDepth 40000 in
lemma c5_final : C5S 12
    = SchedState.mk
        (Db.mk [blkC5 1 0, blkC5 2 1, blkC5 3 2, blkC5 4 3, blkC5 5 4] [] 6)
        (10560 * usPerMin) 1 [blkC5 1 0, blkC5 2 1, blkC5 3 2, blkC5 4 3, blkC5 5 4] := by
  decide

set_option maxRecDepth 40000 in
/-- C5 (amended): with workdays Monday-Friday, day bounds 08:00-17:00, no
pre-existing busy time and a one-week horizon, a work item requiring more
minutes than fit in 5 workdays at the scheduler's full 9 h/day placement rate
(the scheduler does not deduct the 60-minute break, so the weekly fit is
5 * 540 = 2700 minutes, not the capacity engine's 5 * 420) produces exactly
one block per workday covering 08:00-17:00, and the loop terminates at the
horizon with `remainingMinutes = totalMinutes - 2700 > 0`. -/
theorem scenario_c_requires_nine_hour_days (k : Nat) :
    (auto_schedule_next_available_same_person dbEmpty pMF (2701 + k) 1 1
        (480 * usPerMin) 1).created
      = [blkC5 1 0, blkC5 2 1, blkC5 3 2, blkC5 4 3, blkC5 5 4] ∧
    ((auto_schedule_next_available_same_person dbEmpty pMF (2701 + k) 1 1
        (480 * usPerMin) 1).created.map (fun b => b.start / usPerDay))
      = [0, 1, 2, 3, 4] ∧
    (auto_schedule_next_available_same_person dbEmpty pMF (2701 + k) 1 1
        (480 * usPerMin) 1).remaining = k + 1 ∧
    (auto_schedule_next_available_same_person dbEmpty pMF (2701 + k) 1 1
        (480 * usPerMin) 1).cursor
      = ceil_to_snap (480 * usPerMin) WEEK_SNAP_MIN + 1 * 7 * usPerDay := by
  rw [c5_start, c5_chain, c5_final]
  refine ⟨rfl, ?_, ?_, ?_⟩
  · show List.map (fun b => b.start / usPerDay)
        [blkC5 1 0, blkC5 2 1, blkC5 3 2, blkC5 4 3, blkC5 5 4] = [0, 1, 2, 3, 4]
    decide
  · show 1 + k = k + 1
    omega
  · show (10560 * usPerMin : Nat)
        = ceil_to_snap (480 * usPerMin) WEEK_SNAP_MIN + 1 * 7 * usPerDay
    decide

set_option maxRecDepth 10000 in
/-- C5 counterexample: a work item of 2400 minutes exceeds the five-workday
fit at the claimed 7 h/day capacity (5 * 420 = 2100), yet the run finishes
early (Friday 12:00, before the one-week horizon) with remaining 0, because
the scheduler fills the whole 9-hour 08:00-17:00 window each day and never
deducts the break. -/
theorem scenario_c_counterexample :
    5 * (7 * 60) < 2400 ∧
    (auto_schedule_next_available_same_person dbEmpty pMF 2400 1 1
        (480 * usPerMin) 1).remaining = 0 ∧
    (auto_schedule_next_available_same_person dbEmpty pMF 2400 1 1
        (480 * usPerMin) 1).cursor = 6480 * usPerMin ∧
    6480 * usPerMin < ceil_to_snap (480 * usPerMin) WEEK_SNAP_MIN + 1 * 7 * usPerDay :=
  ⟨by decide, by decide, by decide, by decide⟩

/-- main.py `_is_workday` over calendar dates (day indices): the weekday of
day `d` is `d % 7`. -/
def is_workday_date (p : Person) (d : Nat) : Bool :=
  p.work_days.contains (d % 7)

/-- main.py `_workday_minutes`: the raw work-window span clamped at 0, minus
the fixed 60-minute lunch break, clamped at 0 again. -/
def workday_minutes (p : Person) : Int :=
  max 0 (max 0 ((p.work_end : Int) - (p.work_start : Int)) - 60)

/-- main.py `_timeoff_overlaps`: the person's time-off records overlapping
the instant window [startD 00:00, (endD+1) 00:00). -/
def timeoff_overlaps (offs : List TimeOff) (person_id startD endD : Nat) : List TimeOff :=
  offs.filter (fun o => o.person_id = person_id ∧ startD * usPerDay < o.stop ∧
    o.start < (endD + 1) * usPerDay)

/-- Membership in the `off_dates` set built by `_capacity_hours_in_range`:
the loop inserts every date from `o.start.date()` through
`(o.end - timedelta(seconds=1)).date()`. -/
def in_off_dates (offs : List TimeOff) (d : Nat) : Bool :=
  offs.any (fun o => o.start / usPerDay ≤ d ∧ d ≤ (o.stop - usPerSec) / usPerDay)

/-- Embedding of main.py `_capacity_hours_in_range`: hours per day from
`_workday_minutes`, added for every day of the inclusive range that is a
workday and not in `off_dates`.  The Python float accumulation is modelled in
ℚ. -/
def capacity_hours_in_range (offs : List TimeOff) (p : Person)
    (person_id startD endD : Nat) : ℚ :=
  let hrs_day : ℚ := (workday_minutes p : ℚ) / 60
  let offsq := timeoff_overlaps offs person_id startD endD
  ((List.range (endD + 1 - startD)).map (fun i => startD + i)).foldl
    (fun total d =>
      if is_workday_date p d ∧ ¬ in_off_dates offsq d then total + hrs_day else total) 0

/-- The code's day-exclusion rule, expressed over the full time-off table: a
day is excluded iff some time-off record of the person starts on or before it
and, after shrinking the interval end by one second, still reaches it. -/
def code_excluded_day (offs : List TimeOff) (person_id d : Nat) : Bool :=
  offs.any (fun o => o.person_id = person_id ∧ o.start / usPerDay ≤ d ∧
    d ≤ (o.stop - usPerSec) / usPerDay)

/-- Modelled from the spec's words: a day is touched by a time-off interval
when the interval overlaps the day's [00:00, 24:00) instant window. -/
def spec_touched_day (offs : List TimeOff) (person_id d : Nat) : Bool :=
  offs.any (fun o => o.person_id = person_id ∧ d * usPerDay < o.stop ∧
    o.start < (d + 1) * usPerDay)

/-- Modelled from the spec's words: capacity minutes = (number of workdays in
the range not touched by any time-off interval) x dailyCapacityMinutes. -/
def spec_capacity_minutes (offs : List TimeOff) (p : Person)
    (person_id startD endD : Nat) : Int :=
  ((((List.range (endD + 1 - startD)).map (fun i => startD + i)).filter
    (fun d => is_workday_date p d ∧ ¬ spec_touched_day offs person_id d)).length : Int)
    * workday_minutes p

lemma list_any_congr {α : Type} {f g : α → Bool} :
    ∀ {l : List α}, (∀ a ∈ l, f a = g a) → l.any f = l.any g := by
  intro l
  induction l with
  | nil => intro _; rfl
  | cons hd tl ih =>
    intro h
    simp only [List.any_cons, h hd (List.mem_cons_self _ _),
      ih (fun a ha => h a (List.mem_cons_of_mem _ ha))]

/-- For a day inside the queried range, the `off_dates` test against the
filtered time-off list agrees with the same date rule over the whole table:
the overlap query never filters out a record whose date span reaches the
range. -/
lemma in_off_dates_query (offs : List TimeOff) (pid s e d : Nat)
    (hwf : ∀ o ∈ offs, o.start < o.stop) (hds : s ≤ d) (hde : d ≤ e) :
    in_off_dates (timeoff_overlaps offs pid s e) d = code_excluded_day offs pid d := by
  simp only [in_off_dates, timeoff_overlaps, code_excluded_day, List.any_filter]
  apply list_any_congr
  intro o ho
  have hwo := hwf o ho
  rw [← Bool.decide_and, decide_eq_decide]
  simp only [usPerDay, usPerSec, usPerMin]
  constructor
  · rintro ⟨⟨h1, _, _⟩, h4, h5⟩
    exact ⟨h1, h4, h5⟩
  · rintro ⟨h1, h4, h5⟩
    refine ⟨⟨h1, ?_, ?_⟩, h4, h5⟩ <;> omega

lemma cap_foldl (q : ℚ) (pred : Nat → Prop) [DecidablePred pred] :
    ∀ (days : List Nat) (acc : ℚ),
      days.foldl (fun total d => if pred d then total + q else total) acc
        = acc + (((days.filter (fun d => pred d)).length : ℚ)) * q := by
  intro days
  induction days with
  | nil =>
    intro acc
    simp
  | cons hd rest ih =>
    intro acc
    by_cases h : pred hd
    · simp only [List.foldl_cons, if_pos h, List.filter_cons, decide_eq_true_eq, h,
        if_true, List.length_cons]
      rw [ih]
      push_cast
      ring
    · simp only [List.foldl_cons, if_neg h, List.filter_cons, decide_eq_true_eq, h,
        if_false, ih]

/-- C7 (amended): `_capacity_hours_in_range` times 60 equals (number of
workdays in the inclusive range not excluded by the code's date rule) times
`_workday_minutes`, where a day is excluded iff some time-off record starts
on or before it and still reaches it after shrinking the interval end by one
second.  In particular a day is never pro-rated, but a day whose only
coverage comes from an interval ending less than one second after the day's
midnight is not excluded (see the counterexample). -/
theorem capacity_counts_code_excluded_workdays (offs : List TimeOff) (p : Person)
    (pid s e : Nat) (hwf : ∀ o ∈ offs, o.start < o.stop) :
    capacity_hours_in_range offs p pid s e * 60
      = ((((List.range (e + 1 - s)).map (fun i => s + i)).filter
          (fun d => is_workday_date p d ∧ ¬ code_excluded_day offs pid d)).length : ℚ)
        * (workday_minutes p : ℚ) := by
  simp only [capacity_hours_in_range]
  rw [cap_foldl ((workday_minutes p : ℚ) / 60)
    (fun d => is_workday_date p d ∧ ¬ in_off_dates (timeoff_overlaps offs pid s e) d)]
  rw [zero_add]
  have hcong : ((List.range (e + 1 - s)).map (fun i => s + i)).filter
        (fun d => is_workday_date p d ∧ ¬ in_off_dates (timeoff_overlaps offs pid s e) d)
      = ((List.range (e + 1 - s)).map (fun i => s + i)).filter
        (fun d => is_workday_date p d ∧ ¬ code_excluded_day offs pid d) := by
    apply List.filter_congr
    intro d hd
    have hrange : s ≤ d ∧ d ≤ e := by
      simp only [List.mem_map, List.mem_range] at hd
      obtain ⟨i, hi, rfl⟩ := hd
      omega
    rw [in_off_dates_query offs pid s e d hwf hrange.1 hrange.2]
  rw [hcong, mul_assoc, div_mul_cancel₀ _ (by norm_num : (60 : ℚ) ≠ 0)]

/-- A time off covering Tuesday (day 8) 10:00-11:00, used by the C7 witness. -/
def offTue : TimeOff := ⟨1, 8 * usPerDay + 600 * usPerMin, 8 * usPerDay + 660 * usPerMin⟩

/-- Witness for C7's amended statement: one mid-day time off on Tuesday of a
Monday-Friday week leaves 4 countable workdays of 480 minutes. -/
theorem capacity_counts_code_excluded_workdays_witness :
    (∀ o ∈ [offTue], o.start < o.stop) ∧
    capacity_hours_in_range [offTue] pMF 1 7 11 * 60
      = ((((List.range (11 + 1 - 7)).map (fun i => 7 + i)).filter
          (fun d => is_workday_date pMF d ∧ ¬ code_excluded_day [offTue] 1 d)).length : ℚ)
        * (workday_minutes pMF : ℚ) :=
  ⟨by decide, capacity_counts_code_excluded_workdays [offTue] pMF 1 7 11 (by decide)⟩

/-- A one-microsecond time off at the very start of Monday, day 7. -/
def offMicro : TimeOff := ⟨1, 7 * usPerDay, 7 * usPerDay + 1⟩

/-- C7 counterexample: a time off covering the first microsecond of Monday
(day 7) touches that workday, so the claimed formula (untouched workdays
times daily capacity) gives 0 minutes for the one-day range, but the code
counts the day because `(end - 1 second).date()` falls on Sunday: the
computed capacity is 8 hours = 480 minutes. -/
theorem capacity_partially_covered_day_counterexample :
    capacity_hours_in_range [offMicro] pMF 1 7 7 * 60 = 480 ∧
    spec_touched_day [offMicro] 1 7 = true ∧
    is_workday_date pMF 7 = true ∧
    spec_capacity_minutes [offMicro] pMF 1 7 7 = 0 := by
  refine ⟨?_, by decide, by decide, by decide⟩
  norm_num [capacity_hours_in_range, timeoff_overlaps, in_off_dates, workday_minutes,
    is_workday_date, offMicro, pMF, usPerDay, usPerSec, usPerMin, List.range_succ]

/-- models.py Allocation: percent-of-time resourcing of a person on a project
over an inclusive date range (dates are day indices; the single-company scope
of the queries is implicit). -/
structure Allocation where
  project_id : Nat
  person_id : Nat
  start_date : Nat
  end_date : Nat
  percent : Nat
  deriving DecidableEq

/-- models.py AdhocAllocation: percent-of-time commitment without a project. -/
structure AdhocAllocation where
  person_id : Nat
  start_date : Nat
  end_date : Nat
  percent : Nat
  deriving DecidableEq

/-- models.py UnitAllocation: absolute minutes of a work item assigned to a
person over an inclusive date range. -/
structure UnitAllocation where
  project_id : Nat
  work_item_id : Nat
  person_id : Nat
  start_date : Nat
  end_date : Nat
  minutes : Nat
  deriving DecidableEq

/-- A computed aggregation period (an inclusive date bucket); `stop` models
the `end` key. -/
structure Period where
  start : Nat
  stop : Nat
  deriving DecidableEq

/-- main.py portfolio view `_overlap_days`: inclusive-day overlap count of
two date ranges. -/
def overlap_days (a_start a_end b_start b_end : Nat) : Nat :=
  if min a_end b_end < max a_start b_start then 0
  else min a_end b_end - max a_start b_start + 1

/-- Python's builtin `round`: nearest integer, ties to the even neighbour. -/
def py_round (q : ℚ) : Int :=
  let f := Int.floor q
  if q - f < 1 / 2 then f
  else if 1 / 2 < q - f then f + 1
  else if f % 2 = 0 then f else f + 1

/-- The percent allocations of the `(person, period)` cell (the dict-building
loop over `allocs` restricted to one cell): allocations of the person whose
date range overlaps the period. -/
def cell_alloc_pct (allocs : List Allocation) (pid : Nat) (per : Period) : Int :=
  ((allocs.filter (fun a => a.person_id = pid ∧
      ¬ (a.end_date < per.start ∨ per.stop < a.start_date))).map
    (fun a => (a.percent : Int))).sum

/-- Same for ad-hoc allocations. -/
def cell_adhoc_pct (adhoc : List AdhocAllocation) (pid : Nat) (per : Period) : Int :=
  ((adhoc.filter (fun a => a.person_id = pid ∧
      ¬ (a.end_date < per.start ∨ per.stop < a.start_date))).map
    (fun a => (a.percent : Int))).sum

/-- The minute total of the `(person, period)` cell: for every UnitAllocation
of the person with positive minutes and a non-degenerate range, the per-day
rate `minutes / days_total` times the overlap-day count, rounded to whole
minutes (`int(round(mpd * od))`) and added when positive.  Mirrors the
`cell_unit_minutes` dict-building loop restricted to one cell. -/
def cell_unit_minutes (uas : List UnitAllocation) (pid : Nat) (per : Period) : Int :=
  uas.foldl (fun acc ua =>
    if ua.person_id = pid ∧ 0 < ua.minutes ∧ ua.start_date ≤ ua.end_date then
      let days_total : Nat := ua.end_date + 1 - ua.start_date
      let mpd : ℚ := (ua.minutes : ℚ) / (days_total : ℚ)
      let od := overlap_days ua.start_date ua.end_date per.start per.stop
      if 0 < od then
        let m_here := py_round (mpd * (od : ℚ))
        if 0 < m_here then acc + m_here else acc
      else acc
    else acc) 0

/-- The cell percent of the portfolio grid (main.py "Sum % per cell"):
project percents plus ad-hoc percents plus the minute total converted through
the period capacity when both are positive. -/
def cell_sum (allocs : List Allocation) (adhoc : List AdhocAllocation)
    (uas : List UnitAllocation) (pid : Nat) (per : Period) (cap_min : Int) : Int :=
  let pct1 := cell_alloc_pct allocs pid per
  let pct2 := cell_adhoc_pct adhoc pid per
  let um := cell_unit_minutes uas pid per
  pct1 + pct2 +
    (if 0 < cap_min ∧ 0 < um then py_round ((um : ℚ) / (cap_min : ℚ) * 100) else 0)

/-- Modelled from the spec's words (C8): the exact minute-based contribution,
per-day rate times overlap days, with no intermediate rounding. -/
def spec_exact_unit_minutes (uas : List UnitAllocation) (pid : Nat) (per : Period) : ℚ :=
  uas.foldl (fun acc ua =>
    if ua.person_id = pid ∧ 0 < ua.minutes ∧ ua.start_date ≤ ua.end_date then
      acc + (ua.minutes : ℚ) / ((ua.end_date + 1 - ua.start_date : Nat) : ℚ)
        * ((overlap_days ua.start_date ua.end_date per.start per.stop : Nat) : ℚ)
    else acc) 0

/-- Modelled from the spec's words (C8): percent contributions plus the exact
minutes-in-period converted via a single rounding when capacity is positive. -/
def spec_cell_sum (allocs : List Allocation) (adhoc : List AdhocAllocation)
    (uas : List UnitAllocation) (pid : Nat) (per : Period) (cap_min : Int) : Int :=
  cell_alloc_pct allocs pid per + cell_adhoc_pct adhoc pid per +
    (if 0 < cap_min then py_round (spec_exact_unit_minutes uas pid per / (cap_min : ℚ) * 100)
     else 0)

lemma py_round_nonneg {q : ℚ} (h : 0 ≤ q) : 0 ≤ py_round q := by
  simp only [py_round]
  have hf : (0 : Int) ≤ ⌊q⌋ := Int.floor_nonneg.mpr h
  split_ifs <;> omega

lemma py_round_zero : py_round 0 = 0 := by
  simp only [py_round]
  norm_num

/-- The per-allocation minute term of the amended C8 formula: per-day rate
times overlap days, rounded half-to-even to whole minutes. -/
def amended_unit_minutes (uas : List UnitAllocation) (pid : Nat) (per : Period) : Int :=
  ((uas.filter (fun ua => ua.person_id = pid ∧ 0 < ua.minutes ∧
      ua.start_date ≤ ua.end_date)).map
    (fun ua => py_round ((ua.minutes : ℚ) / ((ua.end_date + 1 - ua.start_date : Nat) : ℚ)
      * ((overlap_days ua.start_date ua.end_date per.start per.stop : Nat) : ℚ)))).sum

lemma cell_unit_body (q : ℚ) (hq : 0 ≤ q) (od : Nat) (acc : Int) :
    (if 0 < od then
      (if 0 < py_round (q * (od : ℚ)) then acc + py_round (q * (od : ℚ)) else acc)
     else acc)
      = acc + py_round (q * (od : ℚ)) := by
  by_cases h : 0 < od
  · rw [if_pos h]
    by_cases h2 : 0 < py_round (q * (od : ℚ))
    · rw [if_pos h2]
    · rw [if_neg h2]
      have h3 := py_round_nonneg (by positivity : (0 : ℚ) ≤ q * (od : ℚ))
      omega
  · rw [if_neg h]
    have hod : od = 0 := by omega
    rw [hod]
    push_cast
    rw [mul_zero, py_round_zero, add_zero]

lemma cell_unit_minutes_eq_amended (pid : Nat) (per : Period) :
    ∀ (l : List UnitAllocation) (acc : Int),
      l.foldl (fun acc ua =>
        if ua.person_id = pid ∧ 0 < ua.minutes ∧ ua.start_date ≤ ua.end_date then
          let days_total : Nat := ua.end_date + 1 - ua.start_date
          let mpd : ℚ := (ua.minutes : ℚ) / (days_total : ℚ)
          let od := overlap_days ua.start_date ua.end_date per.start per.stop
          if 0 < od then
            let m_here := py_round (mpd * (od : ℚ))
            if 0 < m_here then acc + m_here else acc
          else acc
        else acc) acc
      = acc + amended_unit_minutes l pid per := by
  intro l
  induction l with
  | nil =>
    intro acc
    simp [amended_unit_minutes]
  | cons hd rest ih =>
    intro acc
    rw [List.foldl_cons]
    by_cases h1 : hd.person_id = pid ∧ 0 < hd.minutes ∧ hd.start_date ≤ hd.end_date
    · have hbody := cell_unit_body
        ((hd.minutes : ℚ) / ((hd.end_date + 1 - hd.start_date : Nat) : ℚ))
        (by positivity)
        (overlap_days hd.start_date hd.end_date per.start per.stop) acc
      simp only [if_pos h1]
      rw [hbody, ih]
      have hfil : amended_unit_minutes (hd :: rest) pid per
          = py_round ((hd.minutes : ℚ) / ((hd.end_date + 1 - hd.start_date : Nat) : ℚ)
              * ((overlap_days hd.start_date hd.end_date per.start per.stop : Nat) : ℚ))
            + amended_unit_minutes rest pid per := by
        simp only [amended_unit_minutes, List.filter_cons, decide_eq_true_eq, h1, and_self,
          if_true, List.map_cons, List.sum_cons]
      rw [hfil]
      omega
    · simp only [if_neg h1]
      rw [ih]
      have hfil : amended_unit_minutes (hd :: rest) pid per
          = amended_unit_minutes rest pid per := by
        simp only [amended_unit_minutes, List.filter_cons, decide_eq_true_eq, h1, if_false]
      rw [hfil]

/-- C8 (amended): a cell of the utilization grid is the sum of the overlapping
project-allocation percents (in full, no clamp), the overlapping ad-hoc
percents, and a minute-based part in which each MinuteAllocation's
minutes-in-period (per-day rate times overlap days) is first rounded to whole
minutes (dropped when zero), the per-cell total is summed, and converted via
`round(total / capacity * 100)` only when both the capacity and the total are
positive; a zero-capacity period contributes nothing from minutes and never
divides, leaving the cell equal to the percent sums alone. -/
theorem cell_percent_formula (allocs : List Allocation) (adhoc : List AdhocAllocation)
    (uas : List UnitAllocation) (pid : Nat) (per : Period) (cm : Int) :
    cell_sum allocs adhoc uas pid per cm
      = cell_alloc_pct allocs pid per + cell_adhoc_pct adhoc pid per +
        (if 0 < cm ∧ 0 < amended_unit_minutes uas pid per
         then py_round ((amended_unit_minutes uas pid per : ℚ) / (cm : ℚ) * 100) else 0) ∧
    (cm ≤ 0 → cell_sum allocs adhoc uas pid per cm
      = cell_alloc_pct allocs pid per + cell_adhoc_pct adhoc pid per) := by
  have hu : cell_unit_minutes uas pid per = amended_unit_minutes uas pid per := by
    have h := cell_unit_minutes_eq_amended pid per uas 0
    simpa [cell_unit_minutes] using h
  constructor
  · simp only [cell_sum, hu]
  · intro hcm
    simp only [cell_sum, hu]
    rw [if_neg (by omega : ¬ (0 < cm ∧ 0 < amended_unit_minutes uas pid per))]
    omega

/-- The minute allocation of the C8 counterexample: 533 minutes over the
five days 7..11 (Monday-Friday), so 106.6 minutes per day. -/
def ua533 : UnitAllocation := ⟨1, 1, 1, 7, 11, 533⟩

/-- The single-day period Monday (day 7). -/
def perMon : Period := ⟨7, 7⟩

/-- A 50 % project allocation over days 7..11. -/
def alloc50 : Allocation := ⟨1, 1, 7, 11, 50⟩

/-- C8 counterexample: with a 240-minute capacity, the code first rounds the
per-allocation minutes (106.6 to 107) and then converts (round(107/240*100) =
45), while the claim's exact pipeline gives round(106.6/240*100) = 44; and a
zero-capacity cell still reports the percent allocations (50), not 0 %. -/
theorem cell_percent_formula_counterexample :
    cell_sum [] [] [ua533] 1 perMon 240 = 45 ∧
    spec_cell_sum [] [] [ua533] 1 perMon 240 = 44 ∧
    cell_sum [alloc50] [] [] 1 perMon 0 = 50 := by
  have hf1 : ⌊(533 : ℚ) / 5⌋ = 106 := by
    rw [Int.floor_eq_iff]
    constructor
    · norm_num
    · norm_num
  have hf2 : ⌊(107 : ℚ) / 240 * 100⌋ = 44 := by
    rw [Int.floor_eq_iff]
    constructor
    · norm_num
    · norm_num
  have hf3 : ⌊(533 : ℚ) / 5 / 240 * 100⌋ = 44 := by
    rw [Int.floor_eq_iff]
    constructor
    · norm_num
    · norm_num
  have hfr1 : Int.fract ((533 : ℚ) / 5) = 3 / 5 := by
    simp only [Int.fract, hf1]
    norm_num
  have hfr2 : Int.fract ((107 : ℚ) / 240 * 100) = 7 / 12 := by
    simp only [Int.fract, hf2]
    norm_num
  have hfr3 : Int.fract ((533 : ℚ) / 5 / 240 * 100) = 5 / 12 := by
    simp only [Int.fract, hf3]
    norm_num
  refine ⟨?_, ?_, ?_⟩
  · norm_num [cell_sum, cell_alloc_pct, cell_adhoc_pct, cell_unit_minutes, overlap_days,
      py_round, ua533, perMon, hf1, hf2, hfr1, hfr2]
  · norm_num [spec_cell_sum, cell_alloc_pct, cell_adhoc_pct, spec_exact_unit_minutes,
      overlap_days, py_round, ua533, perMon, hf3, hfr3]
  · norm_num [cell_sum, cell_alloc_pct, cell_adhoc_pct, cell_unit_minutes, overlap_days,
      alloc50, perMon]

/-- models.py Project (the fields the scope check reads). -/
structure Project where
  id : Nat
  budget_minutes : Nat
  deriving DecidableEq

/-- models.py WorkItem (the fields the scope check reads). -/
structure WorkItem where
  id : Nat
  project_id : Nat
  total_minutes : Nat
  deriving DecidableEq

/-- main.py `_project_totals`: the explicit budget override when positive,
else the sum of the project's work item totals. -/
def project_totals (proj : Project) (items : List WorkItem) : Nat :=
  if 0 < proj.budget_minutes then proj.budget_minutes
  else ((items.filter (fun i => i.project_id = proj.id)).map (fun i => i.total_minutes)).sum

/-- main.py `_planned_minutes_from_allocations`: for every percent allocation
of the project, walk the inclusive date range and add
`int(day_min * percent / 100)` for every workday of the person (people are
looked up by id; allocations of unknown persons are skipped).  The Python
float product is modelled exactly; `int` truncation of the non-negative value
is integer division by 100. -/
def planned_minutes_from_allocations (people : List (Nat × Person))
    (allocs : List Allocation) (project_id : Nat) : Int :=
  (allocs.filter (fun a => a.project_id = project_id)).foldl (fun total a =>
    match people.find? (fun pp => pp.1 = a.person_id) with
    | none => total
    | some pp =>
      ((List.range (a.end_date + 1 - a.start_date)).map (fun i => a.start_date + i)).foldl
        (fun t d => if pp.2.work_days.contains (d % 7) then
          t + (workday_minutes pp.2 * (a.percent : Int)) / 100 else t) total) 0

/-- main.py `_planned_minutes_from_unit_allocations`: the plain sum of the
project's unit-allocation minutes. -/
def planned_minutes_from_unit_allocations (uas : List UnitAllocation)
    (project_id : Nat) : Int :=
  ((uas.filter (fun ua => ua.project_id = project_id)).map (fun ua => (ua.minutes : Int))).sum

/-- The totals dict returned by main.py `_project_scope_planned`. -/
structure ScopeTotals where
  scope : Int
  planned : Int
  planned_pct : Int
  planned_units : Int
  over : Int
  deriving DecidableEq

/-- main.py `_project_scope_planned`. -/
def project_scope_planned (people : List (Nat × Person)) (allocs : List Allocation)
    (items : List WorkItem) (proj : Project) (uas : List UnitAllocation) : ScopeTotals :=
  let scope : Int := project_totals proj items
  let ppct := planned_minutes_from_allocations people allocs proj.id
  let punits := planned_minutes_from_unit_allocations uas proj.id
  { scope := scope, planned := ppct + punits, planned_pct := ppct,
    planned_units := punits, over := max 0 (ppct + punits - scope) }

/-- The error discriminators of the allocation endpoints. -/
inductive ApiError where
  | budget_mode
  | bad_minutes
  | scope_exceeded
  deriving DecidableEq

/-- The observable response of the allocation endpoints: HTTP status, the
`ok` flag, the new record id when one is returned, the error discriminator,
and the totals dict — present only in the 409 rejection body
(`{"error": "scope_exceeded", **totals}`); the success body is
`{"ok": True, "id": ...}` with no totals and no over field. -/
structure ApiResponse where
  status : Nat
  ok : Bool
  id : Option Nat
  error : Option ApiError
  totals : Option ScopeTotals
  deriving DecidableEq

/-- main.py `_week_start` on day indices (epoch is a Monday, so the weekday
of day `d` is `d % 7`). -/
def week_start (d : Nat) : Nat := d - d % 7

/-- The UnitAllocation record built by main.py `api_unit_alloc_create`: the
requested start date is snapped to its Monday-Friday `_week_bucket`. -/
def staged_unit (proj : Project) (work_item_id person_id start_date minutes : Nat) :
    UnitAllocation :=
  ⟨proj.id, work_item_id, person_id, week_start start_date, week_start start_date + 4, minutes⟩

/-- The totals `api_unit_alloc_create` computes after `session.add` +
`session.flush` of the new record — the post-insert state. -/
def unit_staged_totals (people : List (Nat × Person)) (allocs : List Allocation)
    (items : List WorkItem) (proj : Project) (uas : List UnitAllocation)
    (work_item_id person_id start_date minutes : Nat) : ScopeTotals :=
  project_scope_planned people allocs items proj
    (uas ++ [staged_unit proj work_item_id person_id start_date minutes])

/-- Embedding of main.py `api_unit_alloc_create` from the point where the
referenced company, project, work item and person have been resolved and the
minutes normalized: reject budget-mode projects and non-positive minutes,
snap the date to the Monday-Friday week bucket, stage the new record
(`session.add` + `flush`), recompute the totals on the staged state, and
either roll back with a 409 carrying the totals or commit.  The state is the
UnitAllocation table plus the next autoincrement id. -/
def api_unit_alloc_create (people : List (Nat × Person)) (allocs : List Allocation)
    (items : List WorkItem) (proj : Project) (uas : List UnitAllocation) (next_id : Nat)
    (work_item_id person_id start_date minutes : Nat) (allow_over : Bool) :
    (List UnitAllocation × Nat) × ApiResponse :=
  if 0 < proj.budget_minutes then
    ((uas, next_id), ⟨400, false, none, some ApiError.budget_mode, none⟩)
  else if minutes = 0 then
    ((uas, next_id), ⟨400, false, none, some ApiError.bad_minutes, none⟩)
  else if (unit_staged_totals people allocs items proj uas work_item_id person_id
        start_date minutes).scope
      < (unit_staged_totals people allocs items proj uas work_item_id person_id
        start_date minutes).planned ∧ allow_over = false then
    ((uas, next_id),
     ⟨409, false, none, some ApiError.scope_exceeded,
      some (unit_staged_totals people allocs items proj uas work_item_id person_id
        start_date minutes)⟩)
  else
    ((uas ++ [staged_unit proj work_item_id person_id start_date minutes], next_id + 1),
     ⟨200, true, some next_id, none, none⟩)

/-- The totals `api_alloc_create` computes after staging the new percent
allocation — the post-insert state. -/
def pct_staged_totals (people : List (Nat × Person)) (allocs : List Allocation)
    (items : List WorkItem) (proj : Project) (uas : List UnitAllocation)
    (person_id start_date end_date percent : Nat) : ScopeTotals :=
  project_scope_planned people
    (allocs ++ [⟨proj.id, person_id, start_date, end_date, percent⟩]) items proj uas

/-- Embedding of main.py `api_alloc_create` from the point where company and
project have been resolved: stage the new percent allocation, recompute the
totals on the staged state, and either roll back with a 409 carrying the
totals or commit. -/
def api_alloc_create (people : List (Nat × Person)) (allocs : List Allocation)
    (items : List WorkItem) (proj : Project) (uas : List UnitAllocation) (next_id : Nat)
    (person_id start_date end_date percent : Nat) (allow_over : Bool) :
    (List Allocation × Nat) × ApiResponse :=
  if (pct_staged_totals people allocs items proj uas person_id start_date end_date
        percent).scope
      < (pct_staged_totals people allocs items proj uas person_id start_date end_date
        percent).planned ∧ allow_over = false then
    ((allocs, next_id),
     ⟨409, false, none, some ApiError.scope_exceeded,
      some (pct_staged_totals people allocs items proj uas person_id start_date end_date
        percent)⟩)
  else
    ((allocs ++ [⟨proj.id, person_id, start_date, end_date, percent⟩], next_id + 1),
     ⟨200, true, some next_id, none, none⟩)

/-- C6 (amended): both allocation endpoints evaluate the scope check against
the post-insert state (the staged list including the new record).  If the
staged planned exceeds scope and no override flag is passed, the state is
left unchanged (rollback) and the 409 body carries the staged totals, whose
over field equals planned − scope.  Otherwise the staged record is persisted
and the success body is only ok/id: contrary to the original claim, no
totals and no over warning field are returned on the override path. -/
theorem alloc_scope_check_post_insert
    (people : List (Nat × Person)) (allocs : List Allocation) (items : List WorkItem)
    (proj : Project) (uas : List UnitAllocation) (next_id : Nat)
    (wid pid sd ed pct mins : Nat) (ao : Bool)
    (hb : proj.budget_minutes = 0) (hm : 0 < mins) :
    ((unit_staged_totals people allocs items proj uas wid pid sd mins).scope
        < (unit_staged_totals people allocs items proj uas wid pid sd mins).planned
      ∧ ao = false →
      api_unit_alloc_create people allocs items proj uas next_id wid pid sd mins ao
        = ((uas, next_id),
           ⟨409, false, none, some ApiError.scope_exceeded,
            some (unit_staged_totals people allocs items proj uas wid pid sd mins)⟩)
      ∧ (unit_staged_totals people allocs items proj uas wid pid sd mins).over
          = (unit_staged_totals people allocs items proj uas wid pid sd mins).planned
            - (unit_staged_totals people allocs items proj uas wid pid sd mins).scope) ∧
    (¬ ((unit_staged_totals people allocs items proj uas wid pid sd mins).scope
        < (unit_staged_totals people allocs items proj uas wid pid sd mins).planned
      ∧ ao = false) →
      api_unit_alloc_create people allocs items proj uas next_id wid pid sd mins ao
        = ((uas ++ [staged_unit proj wid pid sd mins], next_id + 1),
           ⟨200, true, some next_id, none, none⟩)) ∧
    ((pct_staged_totals people allocs items proj uas pid sd ed pct).scope
        < (pct_staged_totals people allocs items proj uas pid sd ed pct).planned
      ∧ ao = false →
      api_alloc_create people allocs items proj uas next_id pid sd ed pct ao
        = ((allocs, next_id),
           ⟨409, false, none, some ApiError.scope_exceeded,
            some (pct_staged_totals people allocs items proj uas pid sd ed pct)⟩)
      ∧ (pct_staged_totals people allocs items proj uas pid sd ed pct).over
          = (pct_staged_totals people allocs items proj uas pid sd ed pct).planned
            - (pct_staged_totals people allocs items proj uas pid sd ed pct).scope) ∧
    (¬ ((pct_staged_totals people allocs items proj uas pid sd ed pct).scope
        < (pct_staged_totals people allocs items proj uas pid sd ed pct).planned
      ∧ ao = false) →
      api_alloc_create people allocs items proj uas next_id pid sd ed pct ao
        = ((allocs ++ [⟨proj.id, pid, sd, ed, pct⟩], next_id + 1),
           ⟨200, true, some next_id, none, none⟩)) := by
  have hb1 : ¬ 0 < proj.budget_minutes := by omega
  have hm1 : ¬ mins = 0 := by omega
  refine ⟨fun h => ?_, fun h => ?_, fun h => ?_, fun h => ?_⟩
  · unfold api_unit_alloc_create
    rw [if_neg hb1, if_neg hm1, if_pos h]
    refine ⟨rfl, ?_⟩
    show max 0 ((unit_staged_totals people allocs items proj uas wid pid sd mins).planned_pct
        + (unit_staged_totals people allocs items proj uas wid pid sd mins).planned_units
        - (unit_staged_totals people allocs items proj uas wid pid sd mins).scope) = _
    have h1 := h.1
    show max 0 ((unit_staged_totals people allocs items proj uas wid pid sd mins).planned
        - (unit_staged_totals people allocs items proj uas wid pid sd mins).scope) = _
    omega
  · unfold api_unit_alloc_create
    rw [if_neg hb1, if_neg hm1, if_neg h]
  · unfold api_alloc_create
    rw [if_pos h]
    refine ⟨rfl, ?_⟩
    have h1 := h.1
    show max 0 ((pct_staged_totals people allocs items proj uas pid sd ed pct).planned
        - (pct_staged_totals people allocs items proj uas pid sd ed pct).scope) = _
    omega
  · unfold api_alloc_create
    rw [if_neg h]

/-- Witness for C6: Scenario D without override — scope 600 from the single
work item, 500 minutes already planned, a new 200-minute unit allocation is
rejected with a 409 whose totals report over = 100, and the table is left
unchanged. -/
theorem alloc_scope_check_post_insert_witness :
    (⟨1, 0⟩ : Project).budget_minutes = 0 ∧ (0 : Nat) < 200 ∧
    api_unit_alloc_create [] [] [⟨1, 1, 600⟩] ⟨1, 0⟩ [⟨1, 1, 1, 7, 11, 500⟩] 2 1 1 7 200 false
      = (([⟨1, 1, 1, 7, 11, 500⟩], 2),
         ⟨409, false, none, some ApiError.scope_exceeded,
          some (unit_staged_totals [] [] [⟨1, 1, 600⟩] ⟨1, 0⟩
            [⟨1, 1, 1, 7, 11, 500⟩] 1 1 7 200)⟩)
    ∧ (unit_staged_totals [] [] [⟨1, 1, 600⟩] ⟨1, 0⟩
        [⟨1, 1, 1, 7, 11, 500⟩] 1 1 7 200).over = 100 := by
  have h := alloc_scope_check_post_insert [] [] [⟨1, 1, 600⟩] ⟨1, 0⟩
    [⟨1, 1, 1, 7, 11, 500⟩] 2 1 1 7 0 0 200 false rfl (by decide)
  obtain ⟨he, hov⟩ := h.1 ⟨by decide, rfl⟩
  refine ⟨rfl, by decide, he, ?_⟩
  rw [hov]
  decide

/-- Counterexample for C6: Scenario D with override — the over-committed
record is persisted (the persisted state has over = 100), but the success
body is only ok/id with no totals and no over warning field, contrary to the
claim that over is returned to the caller as a warning. -/
theorem override_no_warning_counterexample :
    (api_unit_alloc_create [] [] [⟨1, 1, 600⟩] ⟨1, 0⟩
        [⟨1, 1, 1, 7, 11, 500⟩] 2 1 1 7 200 true).2
      = ⟨200, true, some 2, none, none⟩
    ∧ (api_unit_alloc_create [] [] [⟨1, 1, 600⟩] ⟨1, 0⟩
        [⟨1, 1, 1, 7, 11, 500⟩] 2 1 1 7 200 true).1.1
      = [⟨1, 1, 1, 7, 11, 500⟩, ⟨1, 1, 1, 7, 11, 200⟩]
    ∧ (project_scope_planned [] [] [⟨1, 1, 600⟩] ⟨1, 0⟩
        (api_unit_alloc_create [] [] [⟨1, 1, 600⟩] ⟨1, 0⟩
          [⟨1, 1, 1, 7, 11, 500⟩] 2 1 1 7 200 true).1.1).over
      = 100 := by decide
